import Mathlib

/-!
Shallow embedding of the zotnotes annotation-export core (TypeScript) in Lean 4,
together with proofs of the specification claims C1–C10.

Sources embedded:
- `src/lib/utils.ts` (path normalization, relative paths, quote escaping, year extraction)
- `src/lib/colors.ts` (hex→name table, fixed-order color comparator)
- `src/lib/markdown.ts` (the renderer with template-settings support)
- `src/lib/citekey.ts` (cite-key resolution with extra-field fallback)
- `src/lib/types.ts` / exporter (prepareExport, groupAnnotations, addMissingImageTodo)
- `src/lib/zotero.ts` (backend fallback fusion, annotation merge/dedup)

JavaScript strings are modeled by Lean `String`; `Array.prototype.sort` (stable
in modern JS engines) is modeled by `List.insertionSort` (stable); JS `Map`/`Set`
iteration order (insertion order) is modeled by association lists appended at the
tail; `localeCompare` is modeled as code-point lexicographic comparison.
-/

/-! ### Generic character/string helpers (JS semantics) -/

/-- The single-quote character, written via its code point. -/
def quoteChar : Char := Char.ofNat 39

/-- JS `\w` word characters: ASCII letters, digits, underscore. -/
def isWordChar (c : Char) : Bool := c.isAlphanum || c = '_'

/-- JS `String.prototype.trim` (whitespace on both ends removed); character-list
based so that it evaluates by kernel reduction. -/
def jsTrim (s : String) : String :=
  ⟨((s.data.dropWhile Char.isWhitespace).reverse.dropWhile Char.isWhitespace).reverse⟩

/-- JS `String.prototype.toLowerCase` (ASCII). -/
def jsToLower (s : String) : String := ⟨s.data.map Char.toLower⟩

/-- JS `String.prototype.startsWith`. -/
def jsStartsWith (s p : String) : Bool := p.data.isPrefixOf s.data

/-- JS `Array.prototype.join(sep)`. -/
def joinSep (sep : String) : List String → String
  | [] => ""
  | [s] => s
  | s :: rest => s ++ sep ++ joinSep sep rest

/-- Collapse runs of `'/'` into a single `'/'` (the `replace(/\/+/g,'/')` step). -/
def collapseSlashes : List Char → List Char
  | [] => []
  | [c] => [c]
  | a :: b :: rest =>
    if a = '/' ∧ b = '/' then collapseSlashes (b :: rest)
    else a :: collapseSlashes (b :: rest)

/-- JS `String.prototype.split(sep)` for a one-character separator:
`''.split(c) = ['']`, and separators delimit (possibly empty) fields. -/
def splitOnChar (sep : Char) : List Char → List (List Char)
  | [] => [[]]
  | c :: rest =>
    if c = sep then [] :: splitOnChar sep rest
    else
      match splitOnChar sep rest with
      | [] => [[c]]
      | h :: t => (c :: h) :: t

/-- JS `Array.prototype.indexOf` on string lists (`-1` when absent). -/
def jsIndexOf : List String → String → Int
  | [], _ => -1
  | a :: rest, x =>
    if a = x then 0
    else
      let r := jsIndexOf rest x
      if r < 0 then -1 else r + 1

/-- Code-point lexicographic comparison of character lists. -/
def charListCompare : List Char → List Char → Ordering
  | [], [] => .eq
  | [], _ :: _ => .lt
  | _ :: _, [] => .gt
  | a :: as, b :: bs =>
    if a < b then .lt else if b < a then .gt else charListCompare as bs

/-- Model of `String.prototype.localeCompare` as a sign value
(code-point lexicographic; the repository only compares ASCII color names). -/
def localeCompareInt (a b : String) : Int :=
  match charListCompare a.data b.data with
  | .lt => -1
  | .eq => 0
  | .gt => 1

/-- First occurrences of a string list, in first-seen order (`seen` accumulates
the values already kept; structural so that it evaluates by kernel reduction). -/
def dedupFirstAux (seen : List String) : List String → List String
  | [] => []
  | x :: xs =>
    if seen.contains x then dedupFirstAux seen xs
    else x :: dedupFirstAux (seen ++ [x]) xs

/-- First occurrences of a string list, in first-seen order (JS `[...new Set(l)]`). -/
def dedupFirst (l : List String) : List String := dedupFirstAux [] l

/-! ### `src/lib/utils.ts` -/

/-- `normalizePath`: backslashes to forward slashes, duplicate slashes collapsed. -/
def normalizePath (path : String) : String :=
  ⟨collapseSlashes (path.data.map (fun c => if c = '\\' then '/' else c))⟩

/-- `normalizePath(p).split('/').filter(Boolean)` — the component list used by
`toRelativePath` for both of its arguments. -/
def splitPath (s : String) : List String :=
  ((splitOnChar '/' (normalizePath s).data).map (fun cs => (⟨cs⟩ : String))).filter (· ≠ "")

/-- The `while` loop of `toRelativePath`: length of the longest common prefix. -/
def commonPrefixLen : List String → List String → Nat
  | a :: as, b :: bs => if a = b then commonPrefixLen as bs + 1 else 0
  | _, _ => 0

/-- `toRelativePath(fromFilePath, targetPath)` from `src/lib/utils.ts`. -/
def toRelativePath (fromFilePath targetPath : String) : String :=
  let fromParts := (splitPath fromFilePath).dropLast
  let toParts := splitPath targetPath
  let i := commonPrefixLen fromParts toParts
  let up := List.replicate (fromParts.length - i) ".."
  let down := toParts.drop i
  let result := joinSep "/" (up ++ down)
  if result.length > 0 then result else "."

/-- `escapeSingleQuote`: every single quote is doubled. -/
def escapeSingleQuote (value : String) : String :=
  ⟨value.data.flatMap (fun c => if c = quoteChar then [quoteChar, quoteChar] else [c])⟩

/-- Scanner for the regex `\b(\d{4})\b`: `prev` is the character before the
current position (`none` at the string start); returns the leftmost match. -/
def findFourDigitBounded : Option Char → List Char → Option (List Char)
  | prev, c1 :: rest =>
    (match rest with
     | c2 :: c3 :: c4 :: rest2 =>
       if (match prev with | none => true | some p => !isWordChar p) &&
          c1.isDigit && c2.isDigit && c3.isDigit && c4.isDigit &&
          (match rest2 with | [] => true | n :: _ => !isWordChar n) then
         some [c1, c2, c3, c4]
       else findFourDigitBounded (some c1) rest
     | _ => none)
  | _, [] => none

/-- `extractYear`: first match of `\b(\d{4})\b` in the raw date, else `""`. -/
def extractYear (rawDate : String) : String :=
  match findFourDigitBounded none rawDate.data with
  | some ds => ⟨ds⟩
  | none => ""

/-! ### `src/lib/colors.ts` -/

/-- The `HEX_TO_COLOR` lookup table. -/
def HEX_TO_COLOR (hex : String) : Option String :=
  if hex = "#ffd400" then some "Yellow"
  else if hex = "#fff5ad" then some "Yellow"
  else if hex = "#5fb236" then some "Green"
  else if hex = "#2ea8e5" then some "Blue"
  else if hex = "#a28ae5" then some "Purple"
  else if hex = "#e56eee" then some "Pink"
  else if hex = "#f19837" then some "Orange"
  else if hex = "#aaaaaa" then some "Gray"
  else none

/-- The fixed color priority list. -/
def FIXED_ORDER : List String :=
  ["Yellow", "Green", "Blue", "Pink", "Orange", "Purple", "Gray", "Unknown"]

/-- `colorNameFromHex` from `src/lib/colors.ts`. -/
def colorNameFromHex (input : String) : String :=
  let normalized := jsToLower (jsTrim input)
  if normalized = "" then "Unknown"
  else
    match HEX_TO_COLOR normalized with
    | some mapped => mapped
    | none => "Unknown (" ++ normalized ++ ")"

/-- `colorRank` from `src/lib/colors.ts`. -/
def colorRank (colorName : String) : Int :=
  let unknownIndex := jsIndexOf FIXED_ORDER "Unknown"
  let idx := jsIndexOf FIXED_ORDER colorName
  if idx ≥ 0 then idx
  else if jsStartsWith colorName "Unknown" then unknownIndex
  else unknownIndex + 1

/-- `compareColorGroups` from `src/lib/colors.ts` (both tie branches of the
source call `localeCompare`; the branch structure is kept). -/
def compareColorGroups (a b : String) : Int :=
  let rankDiff := colorRank a - colorRank b
  if rankDiff ≠ 0 then rankDiff
  else if jsStartsWith a "Unknown" ∨ jsStartsWith b "Unknown" then localeCompareInt a b
  else localeCompareInt a b

/-! ### Data model (`src/lib/types.ts`) -/

/-- A creator record (structured name pair or single display name). -/
structure ZoteroCreator where
  firstName : Option String := none
  lastName : Option String := none
  name : Option String := none
deriving DecidableEq, Repr

/-- An item (or child item) record. The dynamic `data` record is modeled by its
string-valued entries (`fields`) plus the `creators` array; `meta.citationKey`
is the only `meta` entry the code reads. Absent or non-string values are both
modeled as an absent entry (the source coerces non-strings to `''`). -/
structure ZoteroItemData where
  key : String
  fields : List (String × String) := []
  creators : List ZoteroCreator := []
  metaCitationKey : Option String := none
deriving DecidableEq, Repr

/-- Lookup of a string-valued `data` field. -/
def dataField (item : ZoteroItemData) (key : String) : Option String :=
  (item.fields.find? (·.1 = key)).map (·.2)

/-- `getField` from the exporter: the field's value, trimmed, `''` if absent. -/
def getField (item : ZoteroItemData) (key : String) : String :=
  jsTrim ((dataField item key).getD "")

/-- A renderable annotation (optional fields model JS `undefined`). -/
structure RenderAnnotation where
  key : String
  text : String
  comment : String
  pageLabel : String
  imageMarkdownPath : Option String := none
  missingImageMessage : Option String := none
deriving DecidableEq, Repr

/-- A color group: a color name plus its annotations in order. -/
structure ColorGroup where
  colorName : String
  annotations : List RenderAnnotation
deriving DecidableEq, Repr

/-- A normalized annotation record. -/
structure AnnotationModel where
  key : String
  attachmentKey : String
  colorHex : String
  colorName : String
  text : String
  comment : String
  pageLabel : String
  sortIndex : Nat
  isImageSelection : Bool
deriving DecidableEq, Repr

/-- A planned image write. -/
structure AnnotationImagePlan where
  annotationKey : String
  attachmentKey : String
  fileName : String
  absolutePath : String
  relativePathFromMarkdown : String
deriving DecidableEq, Repr

/-- Template settings; `propertyOrder = none` models a missing/non-array value,
and arbitrary strings in the list model unknown keys. Heading overrides are
modeled as a partial map from color names. -/
structure TemplateSettings where
  propertyOrder : Option (List String) := none
  colorHeadingOverrides : String → Option String := fun _ => none

/-- The renderer's input. -/
structure ExportInput where
  title : String
  author : String
  year : String
  company : String
  abstractText : String
  citeKey : String
  groupedAnnotations : List ColorGroup
  templateSettings : Option TemplateSettings := none

/-! ### Exporter (`prepareExport` and friends in `src/lib/types.ts`) -/

/-- `creatorToString` from the exporter. -/
def creatorToString (creator : ZoteroCreator) : String :=
  if creator.lastName.getD "" ≠ "" ∨ creator.firstName.getD "" ≠ "" then
    let last := jsTrim (creator.lastName.getD "")
    let first := jsTrim (creator.firstName.getD "")
    joinSep ", " ([last, first].filter (· ≠ ""))
  else jsTrim (creator.name.getD "")

/-- `buildAuthor`: creators serialized and joined by `"; "`. -/
def buildAuthor (item : ZoteroItemData) : String :=
  joinSep "; " ((item.creators.map creatorToString).filter (· ≠ ""))

/-- First non-empty trimmed field among a candidate key list. -/
def firstNonEmptyField (item : ZoteroItemData) : List String → String
  | [] => ""
  | k :: rest =>
    let value := getField item k
    if value ≠ "" then value else firstNonEmptyField item rest

/-- `resolveCompany`: publisher/institution/company/university priority. -/
def resolveCompany (item : ZoteroItemData) : String :=
  firstNonEmptyField item ["publisher", "institution", "company", "university"]

/-- A render annotation still carrying its `__colorName` tag. -/
structure RenderAnnotationWithColor where
  ann : RenderAnnotation
  colorName : String
deriving DecidableEq, Repr

/-- One step of the grouping `Map`: append to the existing bucket of the color
(JS `Map` preserves key insertion order), else add a new bucket at the end. -/
def pushToGroup : List (String × List RenderAnnotation) → String → RenderAnnotation →
    List (String × List RenderAnnotation)
  | [], colorName, ann => [(colorName, [ann])]
  | (k, v) :: rest, colorName, ann =>
    if k = colorName then (k, v ++ [ann]) :: rest
    else (k, v) :: pushToGroup rest colorName ann

/-- `groupAnnotations` from the exporter. -/
def groupAnnotations (annotations : List RenderAnnotationWithColor) : List ColorGroup :=
  (annotations.foldl (fun acc a => pushToGroup acc a.colorName a.ann) []).map
    (fun e => ⟨e.1, e.2⟩)

/-- The exporter's input. -/
structure ExportPreparationInput where
  markdownDir : String
  attachmentBaseDir : String
  citeKey : String
  item : ZoteroItemData
  annotations : List AnnotationModel

/-- The exporter's output. -/
structure PreparedExport where
  markdownPath : String
  title : String
  author : String
  year : String
  company : String
  abstractText : String
  groupedAnnotations : List ColorGroup
  imagePlans : List AnnotationImagePlan
deriving DecidableEq, Repr

/-- Annotation ordering used by `prepareExport` (`a.sortIndex - b.sortIndex`). -/
def annLe (a b : AnnotationModel) : Prop := a.sortIndex ≤ b.sortIndex

instance : DecidableRel annLe := fun a b => by unfold annLe; infer_instance

/-- `input.annotations.sort((a, b) => a.sortIndex - b.sortIndex)`, a stable sort. -/
def sortAnnotations (l : List AnnotationModel) : List AnnotationModel :=
  l.insertionSort annLe

/-- The mapping pass of `prepareExport`: carries the image counter, producing
render annotations (tagged with color) and image plans. -/
def buildRenderList (citeDir markdownPath : String) :
    Nat → List AnnotationModel → List RenderAnnotationWithColor × List AnnotationImagePlan
  | _, [] => ([], [])
  | imageCounter, a :: rest =>
    if a.isImageSelection then
      let counter1 := imageCounter + 1
      let fileName := "image_" ++ toString counter1 ++ ".png"
      let absolutePath := normalizePath (citeDir ++ "/" ++ fileName)
      let rel := toRelativePath markdownPath absolutePath
      let (restRenders, restPlans) := buildRenderList citeDir markdownPath counter1 rest
      (⟨⟨a.key, jsTrim a.text, jsTrim a.comment, jsTrim a.pageLabel, some rel, none⟩, a.colorName⟩ :: restRenders,
       ⟨a.key, a.attachmentKey, fileName, absolutePath, rel⟩ :: restPlans)
    else
      let (restRenders, restPlans) := buildRenderList citeDir markdownPath imageCounter rest
      (⟨⟨a.key, jsTrim a.text, jsTrim a.comment, jsTrim a.pageLabel, none, none⟩, a.colorName⟩ :: restRenders,
       restPlans)

/-- `prepareExport` from the exporter. -/
def prepareExport (input : ExportPreparationInput) : PreparedExport :=
  let citeDir := normalizePath (input.attachmentBaseDir ++ "/attachment/" ++ input.citeKey)
  let markdownPath := normalizePath (input.markdownDir ++ "/@" ++ input.citeKey ++ ".md")
  let sorted := sortAnnotations input.annotations
  let builtLists := buildRenderList citeDir markdownPath 0 sorted
  { markdownPath := markdownPath
    title := getField input.item "title"
    author := buildAuthor input.item
    year := extractYear (getField input.item "date")
    company := resolveCompany input.item
    abstractText := getField input.item "abstractNote"
    groupedAnnotations := groupAnnotations builtLists.1
    imagePlans := builtLists.2 }

/-- `addMissingImageTodo` from the exporter. -/
def addMissingImageTodo (prepared : PreparedExport) (annotationKey message : String) :
    PreparedExport :=
  { prepared with
    groupedAnnotations := prepared.groupedAnnotations.map (fun group =>
      { group with
        annotations := group.annotations.map (fun a0 =>
          if a0.key ≠ annotationKey then a0
          else { a0 with
                 imageMarkdownPath := none
                 missingImageMessage := some message }) }) }

/-- `normalizeAnnotation` from the exporter (renamed `normalizeAnn` here). -/
def normalizeAnn (raw : ZoteroItemData) (attachmentKey : String) (sortIndex : Nat) :
    AnnotationModel :=
  { key := raw.key
    attachmentKey := attachmentKey
    colorHex := jsToLower (jsTrim ((dataField raw "annotationColor").getD ""))
    colorName := colorNameFromHex (jsToLower (jsTrim ((dataField raw "annotationColor").getD "")))
    text := jsTrim ((dataField raw "annotationText").getD "")
    comment := jsTrim ((dataField raw "annotationComment").getD "")
    pageLabel := jsTrim ((dataField raw "annotationPageLabel").getD "")
    sortIndex := sortIndex
    isImageSelection := jsToLower ((dataField raw "annotationType").getD "") = "image" }

/-! ### Markdown renderer (`src/lib/markdown.ts`, template-settings variant) -/

/-- Uppercase hexadecimal digit. -/
def hexDigitChar (n : Nat) : Char :=
  if n < 10 then Char.ofNat (48 + n) else Char.ofNat (55 + n)

/-- UTF-8 bytes of a code point. -/
def utf8Bytes (n : Nat) : List Nat :=
  if n < 128 then [n]
  else if n < 2048 then [192 + n / 64, 128 + n % 64]
  else if n < 65536 then [224 + n / 4096, 128 + (n / 64) % 64, 128 + n % 64]
  else [240 + n / 262144, 128 + (n / 4096) % 64, 128 + (n / 64) % 64, 128 + n % 64]

/-- Characters `encodeURIComponent` leaves unescaped (`A–Z a–z 0–9 - _ . ! ~ * ' ( )`). -/
def isUriUnreserved (c : Char) : Bool :=
  c.isAlphanum || c = '-' || c = '_' || c = '.' || c = '!' || c = '~' || c = '*' ||
    c = quoteChar || c = '(' || c = ')'

/-- JS `encodeURIComponent`. -/
def encodeURIComponent (s : String) : String :=
  ⟨s.data.flatMap (fun c =>
    if isUriUnreserved c then [c]
    else (utf8Bytes c.toNat).flatMap (fun b => ['%', hexDigitChar (b / 16), hexDigitChar (b % 16)]))⟩

/-- A one-character string holding a single quote. -/
def singleQuoteStr : String := ⟨[quoteChar]⟩

/-- `annotationQuoteLines` from the renderer. -/
def annotationQuoteLines (a0 : RenderAnnotation) : List String :=
  let pageSuffix :=
    if a0.pageLabel ≠ "" then
      " ([p. " ++ a0.pageLabel ++ "](zotero://select/library/items/" ++
        encodeURIComponent a0.key ++ "))"
    else ""
  let lines :=
    if a0.text ≠ "" then [a0.text ++ pageSuffix]
    else if a0.comment ≠ "" then [a0.comment ++ pageSuffix]
    else if pageSuffix ≠ "" then ["(No text extracted)" ++ pageSuffix]
    else ["(No text extracted)"]
  let lines :=
    if a0.text ≠ "" ∧ a0.comment ≠ "" then
      lines ++ ["Comment: " ++ a0.comment]
    else lines
  let lines :=
    match a0.imageMarkdownPath with
    | some p => if p ≠ "" then lines ++ ["[[" ++ p ++ "]]"] else lines
    | none => lines
  match a0.missingImageMessage with
  | some m => if m ≠ "" then lines ++ ["TODO: " ++ m] else lines
  | none => lines

/-- One step of `split(/\r?\n/)`: a `'\r'` immediately before a split point is
consumed; the final field keeps a trailing `'\r'`. -/
def stripTrailingCRs : List (List Char) → List (List Char)
  | [] => []
  | [last] => [last]
  | p :: rest =>
    (if p.getLast? = some '\r' then p.dropLast else p) :: stripTrailingCRs rest

/-- JS `split(/\r?\n/)`. -/
def splitLines (s : String) : List String :=
  (stripTrailingCRs (splitOnChar '\n' s.data)).map (fun cs => (⟨cs⟩ : String))

/-- `renderAbstractCallout` from the renderer. -/
def renderAbstractCallout (abstractText : String) : List String :=
  if jsTrim abstractText = "" then []
  else
    let lines := ((splitLines abstractText).map jsTrim).filter (fun l => l.length > 0)
    ["> [!INFO]", "> ", "> Abstract", "> "] ++ lines.map (fun line => "> " ++ line) ++ ["> ", ""]

/-- The comparator relation induced by `compareColorGroups` on groups. -/
def groupOrder (a b : ColorGroup) : Prop :=
  compareColorGroups a.colorName b.colorName ≤ 0

instance : DecidableRel groupOrder := fun a b => by unfold groupOrder; infer_instance

/-- `sortGroups`: a stable comparator sort over a copy of the group list. -/
def sortGroups (groups : List ColorGroup) : List ColorGroup :=
  groups.insertionSort groupOrder

/-- `DEFAULT_PROPERTY_ORDER` from the renderer. -/
def DEFAULT_PROPERTY_ORDER : List String := ["title", "author", "year", "company"]

/-- The property names reachable on `Object.prototype`, which a plain object
literal such as `PROPERTY_LABELS` inherits: the ES2023 `Object.prototype`
methods plus the Annex B accessors present in the engines the app runs under.
The JS `in` operator consults the whole prototype chain, so `key in
PROPERTY_LABELS` is `true` for every one of these names. -/
def objectPrototypeKeys : List String :=
  ["constructor", "hasOwnProperty", "isPrototypeOf", "propertyIsEnumerable",
   "toLocaleString", "toString", "valueOf", "__defineGetter__", "__defineSetter__",
   "__lookupGetter__", "__lookupSetter__", "__proto__"]

/-- `key in PROPERTY_LABELS` from `normalizePropertyOrder`: true for the four
own keys of the literal and, because `in` walks the prototype chain, for every
`Object.prototype` property name. -/
def jsInPropertyLabels (key : String) : Bool :=
  (["title", "author", "year", "company"] : List String).contains key ||
    objectPrototypeKeys.contains key

/-- `PROPERTY_LABELS[key]` as interpolated into the metadata template literal:
the four own entries give their label string; every other `Object.prototype`
name reaches the inherited value, which the template literal coerces to a
string (`__proto__` yields `Object.prototype`, printed `[object Object]`; the
methods are native functions, whose source text is modeled in the
`function name() \x7b [native code] \x7d` form produced by the V8 engine the
repository's own snapshot tests run under); any other key is `undefined`
(`none`), though sanitization keeps `undefined` keys out of the render path. -/
def PROPERTY_LABELS (key : String) : Option String :=
  if key = "title" then some "Title"
  else if key = "author" then some "Author"
  else if key = "year" then some "Year"
  else if key = "company" then some "Company"
  else if key = "constructor" then some "function Object() \x7b [native code] \x7d"
  else if key = "__proto__" then some "[object Object]"
  else if objectPrototypeKeys.contains key then
    some ("function " ++ key ++ "() \x7b [native code] \x7d")
  else none

/-- `normalizePropertyOrder` from the renderer: non-array becomes `[]`, keys
failing the `key in PROPERTY_LABELS` test are dropped (which keeps inherited
`Object.prototype` names, not only the canonical four), duplicates removed
keeping the first occurrence, missing canonical keys appended in default
order. -/
def normalizePropertyOrder (order : Option (List String)) : List String :=
  let base := order.getD []
  let valid := base.filter jsInPropertyLabels
  let deduped := dedupFirst valid
  deduped ++ DEFAULT_PROPERTY_ORDER.filter (fun k => ¬ deduped.contains k)

/-- `metadataValue` from the renderer. -/
def metadataValue (input : ExportInput) (key : String) : String :=
  if key = "title" then input.title
  else if key = "author" then input.author
  else if key = "year" then input.year
  else input.company

/-- One frontmatter property line, `Key: 'escaped-value'`. -/
def propertyLine (input : ExportInput) (key : String) : String :=
  (PROPERTY_LABELS key).getD "" ++ ": " ++ singleQuoteStr ++ escapeSingleQuote (metadataValue input key) ++ singleQuoteStr

/-- The annotation lines of one group: each annotation's quote lines prefixed
with `"> "`, with one empty line between consecutive annotations. -/
def annotationBlockLines : List RenderAnnotation → List String
  | [] => []
  | [a] => (annotationQuoteLines a).map (fun q => "> " ++ q)
  | a :: rest =>
    (annotationQuoteLines a).map (fun q => "> " ++ q) ++ [""] ++ annotationBlockLines rest

/-- Heading text of a group: the template override when present and non-blank
after trimming, else the color name. -/
def groupHeading (input : ExportInput) (group : ColorGroup) : String :=
  match input.templateSettings.bind
      (fun ts => (ts.colorHeadingOverrides group.colorName).map jsTrim) with
  | some o => if o ≠ "" then o else group.colorName
  | none => group.colorName

/-- The `lines` array built by `generateMarkdown` before joining. -/
def generateMarkdownLines (input : ExportInput) : List String :=
  let propertyOrder := normalizePropertyOrder (input.templateSettings.bind (·.propertyOrder))
  let metadataLines := propertyOrder.map (propertyLine input)
  ["---", "tags:", "  - type/source/paper"] ++ metadataLines ++ ["---", "", "Project:", ""] ++
    renderAbstractCallout input.abstractText ++ ["## Annotations", ""] ++
    (sortGroups input.groupedAnnotations).flatMap (fun group =>
      ["### " ++ groupHeading input group] ++ annotationBlockLines group.annotations ++ [""])

/-- JS `String.prototype.trimEnd`. -/
def jsTrimEnd (s : String) : String :=
  ⟨(s.data.reverse.dropWhile Char.isWhitespace).reverse⟩

/-- `generateMarkdown` from `src/lib/markdown.ts` (the current renderer, the one
exercised by `src/__tests__/markdown.test.ts`). -/
def generateMarkdown (input : ExportInput) : String :=
  jsTrimEnd (joinSep "\n" (generateMarkdownLines input)) ++ "\n"

/-- `renderPreparedExport` from the exporter (no template settings supplied). -/
def renderPreparedExport (prepared : PreparedExport) : String :=
  generateMarkdown
    { title := prepared.title
      author := prepared.author
      year := prepared.year
      company := prepared.company
      abstractText := prepared.abstractText
      citeKey := ""
      groupedAnnotations := prepared.groupedAnnotations }

/-! ### Cite-key resolution (`src/lib/citekey.ts`) -/

/-- `normalizeCandidate`: a string candidate trimmed, else `''`. -/
def normalizeCandidate (candidate : Option String) : String :=
  jsTrim (candidate.getD "")

/-- Consume one literal word case-insensitively (`/i`, word given lowercase). -/
def consumeWordCI : List Char → List Char → Option (List Char)
  | [], rest => some rest
  | w :: ws, c :: rest => if c.toLower = w then consumeWordCI ws rest else none
  | _ :: _, [] => none

/-- Drop leading regex-`\s` whitespace. -/
def skipWs (cs : List Char) : List Char := cs.dropWhile Char.isWhitespace

/-- Consume a sequence of words, each followed by `\s*`. -/
def matchWords : List (List Char) → List Char → Option (List Char)
  | [], cs => some cs
  | w :: ws, cs =>
    match consumeWordCI w cs with
    | some rest => matchWords ws (skipWs rest)
    | none => none

/-- Match `^word₁\s*word₂\s*…\s*:\s*(.+)$` against a pre-trimmed line, returning
the captured value trimmed. (Because the line is trimmed, greedy `\s*` followed
by a non-empty capture is equivalent to dropping the whitespace after `:`.) -/
def matchLabelPattern (words : List (List Char)) (line : List Char) : Option String :=
  match matchWords words line with
  | some rest =>
    match rest with
    | c :: rest2 =>
      if c = ':' then
        let captured := skipWs rest2
        if captured = [] then none else some (jsTrim ⟨captured⟩)
      else none
    | [] => none
  | none => none

/-- The three label patterns of `extractFromExtra`, in order. -/
def CITATION_PATTERNS : List (List (List Char)) :=
  [["citation".data, "key".data], ["citekey".data], ["bbt".data, "citation".data, "key".data]]

/-- Try each pattern in order against one trimmed line. -/
def firstPatternMatch : List (List (List Char)) → List Char → Option String
  | [], _ => none
  | p :: ps, line =>
    match matchLabelPattern p line with
    | some v => some v
    | none => firstPatternMatch ps line

/-- Scan the extra field's lines in order. -/
def scanExtraLines : List String → Option String
  | [] => none
  | line :: rest =>
    match firstPatternMatch CITATION_PATTERNS (jsTrim line).data with
    | some v => some v
    | none => scanExtraLines rest

/-- `extractFromExtra` from `src/lib/citekey.ts`. -/
def extractFromExtra (extra : Option String) : String :=
  match extra with
  | none => ""
  | some e =>
    if jsTrim e = "" then ""
    else (scanExtraLines (splitLines e)).getD ""

/-- The remediation message thrown when no cite key can be resolved. -/
def CITE_KEY_MISSING_MESSAGE : String :=
  "Better BibTeX cite key is missing for this item. In Zotero, install Better BibTeX and ensure a citation key exists (for example in Extra: \"Citation Key: mykey\")."

/-- The first direct candidate whose normalized value is non-empty. -/
def firstNonEmptyCandidate : List (Option String) → Option String
  | [] => none
  | c :: rest =>
    let v := normalizeCandidate c
    if v ≠ "" then some v else firstNonEmptyCandidate rest

/-- `resolveCiteKey` from `src/lib/citekey.ts`; the thrown error is modeled as
`Except.error` carrying the message. -/
def resolveCiteKey (item : ZoteroItemData) : Except String String :=
  match firstNonEmptyCandidate
      [dataField item "citationKey", dataField item "citekey",
       dataField item "bibtexKey", item.metaCitationKey] with
  | some v => .ok v
  | none =>
    let extraFromData := extractFromExtra (dataField item "extra")
    if extraFromData ≠ "" then .ok extraFromData
    else .error CITE_KEY_MISSING_MESSAGE

/-! ### Zotero client (`src/lib/zotero.ts`) -/

/-- A search result row. -/
structure ItemSummary where
  key : String
  title : String
  creators : String
  year : String
deriving DecidableEq, Repr

/-- `isUsableTitle` from `src/lib/zotero.ts`. -/
def isUsableTitle (title : String) : Bool :=
  let normalized := jsToLower (jsTrim title)
  normalized.length > 0 && normalized ≠ "(untitled)"

/-- `sanitizeSearchResults` from `src/lib/zotero.ts`. -/
def sanitizeSearchResults (items : List ItemSummary) : List ItemSummary :=
  (items.filter (fun item => isUsableTitle item.title)).map (fun item =>
    { item with
      title := jsTrim item.title
      creators := jsTrim item.creators
      year := jsTrim item.year })

/-- `creatorsSummary` from `src/lib/zotero.ts` (no trimming, unlike the exporter). -/
def creatorsSummary (item : ZoteroItemData) : String :=
  joinSep "; " ((item.creators.map (fun creator =>
    if creator.lastName.getD "" ≠ "" ∨ creator.firstName.getD "" ≠ "" then
      joinSep ", " ([creator.lastName.getD "", creator.firstName.getD ""].filter (· ≠ ""))
    else creator.name.getD "")).filter (· ≠ ""))

/-- `String(entry.data.itemType ?? '')`. -/
def itemTypeOf (entry : ZoteroItemData) : String := (dataField entry "itemType").getD ""

/-- Leftmost match of `/\d{4}/` (no word boundaries — contrast `extractYear`). -/
def findFourDigits : List Char → Option (List Char)
  | c1 :: rest =>
    (match rest with
     | c2 :: c3 :: c4 :: _ =>
       if c1.isDigit && c2.isDigit && c3.isDigit && c4.isDigit then some [c1, c2, c3, c4]
       else findFourDigits rest
     | _ => none)
  | [] => none

/-- `s.match(/\d{4}/)?.[0] ?? ''`. -/
def firstFourConsecutiveDigits (s : String) : String :=
  match findFourDigits s.data with
  | some ds => ⟨ds⟩
  | none => ""

/-- The HTTP branch of `searchItems`: filter out non-top-level item types and
map to summaries. -/
def searchSummaries (raw : List ZoteroItemData) : List ItemSummary :=
  (raw.filter (fun entry =>
    ¬ ["attachment", "note", "annotation"].contains (itemTypeOf entry))).map (fun item =>
    ⟨item.key, (dataField item "title").getD "", creatorsSummary item,
      firstFourConsecutiveDigits ((dataField item "date").getD "")⟩)

/-- `ZoteroClient.searchItems` as a function of the two backend outcomes: the
HTTP API attempt (including its internal shaping) and the SQLite fallback. -/
def searchItems (apiResult : Except String (List ZoteroItemData))
    (sqliteResult : Except String (List ItemSummary)) : Except String (List ItemSummary) :=
  match apiResult with
  | .ok raw => .ok (sanitizeSearchResults (searchSummaries raw))
  | .error apiMessage =>
    match sqliteResult with
    | .ok sqliteResults => .ok (sanitizeSearchResults sqliteResults)
    | .error sqliteMessage =>
      .error ("Zotero search failed via HTTP API (" ++ apiMessage ++
        ") and SQLite fallback (" ++ sqliteMessage ++ ").")

/-- `ZoteroClient.getItem` as a function of the two backend outcomes (the HTTP
attempt's value is the already-shaped item; a shaping failure is part of the
HTTP attempt's error since `shapeItem` runs inside the same `try`). -/
def getItem (apiResult : Except String ZoteroItemData)
    (sqliteResult : Except String ZoteroItemData) : Except String ZoteroItemData :=
  match apiResult with
  | .ok item => .ok item
  | .error apiMessage =>
    match sqliteResult with
    | .ok item => .ok item
    | .error sqliteMessage =>
      .error ("Zotero item lookup failed via HTTP API (" ++ apiMessage ++
        ") and SQLite fallback (" ++ sqliteMessage ++ ").")

/-- Following the spec's words for the claim under test (primary = the local
structured store attempted first, HTTP second), for comparison with `getItem`. -/
def getItemSpecPrimaryFirst (apiResult : Except String ZoteroItemData)
    (sqliteResult : Except String ZoteroItemData) : Except String ZoteroItemData :=
  match sqliteResult with
  | .ok item => .ok item
  | .error sqliteMessage =>
    match apiResult with
    | .ok item => .ok item
    | .error apiMessage =>
      .error ("Zotero item lookup failed via HTTP API (" ++ apiMessage ++
        ") and SQLite fallback (" ++ sqliteMessage ++ ").")

/-- One annotation discovery: the raw child record and the attachment key it is
attributed to at that discovery site. -/
structure AnnotationDiscovery where
  item : ZoteroItemData
  attachmentKey : String
deriving DecidableEq, Repr

/-- An entry of the `byKey` map. -/
structure MergeEntry where
  item : ZoteroItemData
  attachmentKey : String
  sortIndex : Nat
deriving DecidableEq, Repr

/-- `addAnnotation` from `getAnnotationsForItem`: state is the insertion-ordered
`byKey` map plus `sortCounter`; a rediscovered key leaves the state unchanged. -/
def addAnnotation (st : List (String × MergeEntry) × Nat) (d : AnnotationDiscovery) :
    List (String × MergeEntry) × Nat :=
  if (st.1.map Prod.fst).contains d.item.key then st
  else (st.1 ++ [(d.item.key, ⟨d.item, d.attachmentKey, st.2⟩)], st.2 + 1)

/-- The merge phase of `getAnnotationsForItem`: fold the discoveries through
`addAnnotation`, then normalize the entries in insertion order. -/
def mergeAnnotations (ds : List AnnotationDiscovery) : List AnnotationModel :=
  ((ds.foldl addAnnotation ([], 0)).1.map Prod.snd).map
    (fun e => normalizeAnn e.item e.attachmentKey e.sortIndex)

/-- The discovery sequence of `getAnnotationsForItem`'s HTTP strategy: direct
children of the item (via both endpoints), then, per attachment key (first-seen
order), the attachment's children via both endpoint strategies. `attachmentFetch`
carries the per-attachment endpoint results, `[]` standing for a caught failure. -/
def discoveriesForItem (itemKey : String)
    (parentChildren parentQueryChildren : List ZoteroItemData)
    (attachmentFetch : String → List ZoteroItemData × List ZoteroItemData) :
    List AnnotationDiscovery :=
  let all := parentChildren ++ parentQueryChildren
  let attachmentKeys := dedupFirst ((all.filter (fun c => itemTypeOf c = "attachment")).map (·.key))
  let direct := (all.filter (fun c => itemTypeOf c = "annotation")).map (fun ann =>
    (⟨ann, (dataField ann "parentItem").getD itemKey⟩ : AnnotationDiscovery))
  let perAttachment := attachmentKeys.flatMap (fun ak =>
    let fetched := attachmentFetch ak
    ((fetched.1 ++ fetched.2).filter (fun c => itemTypeOf c = "annotation")).map (fun ann =>
      (⟨ann, ak⟩ : AnnotationDiscovery)))
  direct ++ perAttachment

/-- `getAnnotationsForItem`'s HTTP strategy (after the SQLite attempt failed),
as a function of the endpoint results. -/
def getAnnotationsForItemHttp (itemKey : String)
    (parentChildren parentQueryChildren : List ZoteroItemData)
    (attachmentFetch : String → List ZoteroItemData × List ZoteroItemData) :
    List AnnotationModel :=
  mergeAnnotations (discoveriesForItem itemKey parentChildren parentQueryChildren attachmentFetch)

/-! ### Concrete instances used by the claim theorems -/

/-- The end-to-end example input of the spec (values as in the repository's
renderer test): the item metadata plus one Yellow text annotation and one Blue
image annotation. -/
def c1Input : ExportInput :=
  { title := "Attention Is All You Need"
    author := "Vaswani, Ashish; Shazeer, Noam"
    year := "2017"
    company := "Google"
    citeKey := "vaswani2017attention"
    abstractText := "This paper introduces the Transformer architecture."
    groupedAnnotations :=
      [⟨"Yellow", [{ key := "ANN1", text := "The Transformer uses self-attention.",
                     comment := "Key contribution", pageLabel := "3" }]⟩,
       ⟨"Blue", [{ key := "ANN2", text := "Multi-head attention improves expressivity.",
                   comment := "", pageLabel := "4",
                   imageMarkdownPath := some "../attachment/vaswani2017attention/image_1.png" }]⟩] }

/-- The document the renderer must produce for `c1Input`: frontmatter in default
order, abstract callout, `## Annotations`, `### Yellow` before `### Blue`, the
page-3 reference linking to the Yellow annotation's own key followed by the
`Comment:` line, and the Blue section's embed of the image's relative path. -/
def c1Expected : String :=
  "---\ntags:\n  - type/source/paper\nTitle: " ++ singleQuoteStr ++
    "Attention Is All You Need" ++ singleQuoteStr ++
  "\nAuthor: " ++ singleQuoteStr ++ "Vaswani, Ashish; Shazeer, Noam" ++ singleQuoteStr ++
  "\nYear: " ++ singleQuoteStr ++ "2017" ++ singleQuoteStr ++
  "\nCompany: " ++ singleQuoteStr ++ "Google" ++ singleQuoteStr ++
  "\n---\n\nProject:\n\n> [!INFO]\n> \n> Abstract\n> \n> This paper introduces the Transformer architecture.\n> \n\n## Annotations\n\n### Yellow\n> The Transformer uses self-attention. ([p. 3](zotero://select/library/items/ANN1))\n> Comment: Key contribution\n\n### Blue\n> Multi-head attention improves expressivity. ([p. 4](zotero://select/library/items/ANN2))\n> [[../attachment/vaswani2017attention/image_1.png]]\n"

/-- Renderer input whose template settings supply the property order
`["toString"]`: not one of the four canonical keys, yet kept by the JS
`key in PROPERTY_LABELS` test because the name is inherited from
`Object.prototype`. -/
def c7Input : ExportInput :=
  { title := "T"
    author := "A"
    year := "2020"
    company := "ACME"
    citeKey := ""
    abstractText := ""
    groupedAnnotations := []
    templateSettings := some { propertyOrder := some ["toString"] } }

deriving instance DecidableEq for Except

/-! ### Specification-side definitions used to state claims -/

/-- Whether position `i` carries a word-boundary-delimited four-digit run:
the previous character (or `prev` at position `0`) is not a word character,
four digits start at `i`, and the following character (if any) is not a word
character. -/
def yearRunAtFrom (prev : Option Char) (cs : List Char) (i : Nat) : Bool :=
  (match i with
   | 0 => match prev with | none => true | some p => !isWordChar p
   | j + 1 => match cs.get? j with | some p => !isWordChar p | none => true)
  && ((cs.drop i).take 4).length = 4
  && ((cs.drop i).take 4).all Char.isDigit
  && (match cs.get? (i + 4) with | some n => !isWordChar n | none => true)

/-- The first word-boundary-delimited four-digit run of a string, `""` if none —
the amended reading of "the first 4-digit run in the date field". -/
def firstBoundedYear (s : String) : String :=
  match (List.range s.data.length).find? (yearRunAtFrom none s.data) with
  | some i => ⟨(s.data.drop i).take 4⟩
  | none => ""

/-- One step of resolving a relative-path segment against a directory:
`".."` pops a component, `"."` is neutral, anything else descends. -/
def resolveStep (dir : List String) (seg : String) : List String :=
  if seg = ".." then dir.dropLast else if seg = "." then dir else dir ++ [seg]

/-- Resolve a relative path (split like the source splits paths) against a
directory given as its component list. -/
def resolveRel (dir : List String) (rel : String) : List String :=
  (((splitOnChar '/' rel.data).map (fun cs => (⟨cs⟩ : String))).filter (· ≠ "")).foldl
    resolveStep dir

/-- First-per-key discoveries (`seen` accumulates keys already taken), the
reference shape of the merge fold. -/
def firstOccurrences (seen : List String) : List AnnotationDiscovery → List AnnotationDiscovery
  | [] => []
  | d :: rest =>
    if seen.contains d.item.key then firstOccurrences seen rest
    else d :: firstOccurrences (seen ++ [d.item.key]) rest

/-- `byKey` entries for a run of fresh discoveries, numbered from `n`. -/
def entriesFrom (n : Nat) : List AnnotationDiscovery → List (String × MergeEntry)
  | [] => []
  | d :: rest => (d.item.key, ⟨d.item, d.attachmentKey, n⟩) :: entriesFrom (n + 1) rest

/-- Substring test (any position where `sub` is a prefix of the remainder). -/
def strContains (s sub : String) : Bool :=
  (List.range (s.data.length + 1)).any (fun i => sub.data.isPrefixOf (s.data.drop i))

/-! ### Further concrete instances used by the claim theorems -/

/-- An item whose date field is `"a2020"`: the digits are preceded by a word
character, so `\b(\d{4})\b` cannot match. -/
def c9Item : ZoteroItemData := { key := "I1", fields := [("date", "a2020")] }

/-- An export-preparation input carrying `c9Item`. -/
def c9Input : ExportPreparationInput :=
  { markdownDir := "/md", attachmentBaseDir := "/att", citeKey := "k",
    item := c9Item, annotations := [] }

/-- Item with no direct cite-key field but an extra-notes line. -/
def c6ExtraItem : ZoteroItemData :=
  { key := "X1", fields := [("extra", "Some note\nCitation Key: smith2020foo")] }

/-- Item with neither a direct cite-key field nor a usable extra line. -/
def c6BareItem : ZoteroItemData := { key := "X2", fields := [("title", "T")] }

/-- Item with a direct citation-key field (whitespace to be trimmed). -/
def c6DirectItem : ZoteroItemData :=
  { key := "X3", fields := [("citationKey", "  direct2020key "), ("extra", "Citation Key: other")] }

/-- Two distinct items answering the same key from the two backends. -/
def c3HttpItem : ZoteroItemData := { key := "K1", fields := [("title", "From HTTP API")] }

/-- See `c3HttpItem`. -/
def c3SqliteItem : ZoteroItemData := { key := "K1", fields := [("title", "From SQLite store")] }

/-- A discovery list with an overlapping key across two discovery paths:
`B` is rediscovered (with a different attachment attribution) after `A`. -/
def c2Discoveries : List AnnotationDiscovery :=
  [⟨{ key := "A", fields := [("itemType", "annotation"), ("annotationText", "first")] }, "ATT1"⟩,
   ⟨{ key := "B", fields := [("itemType", "annotation"), ("annotationText", "second")] }, "ATT1"⟩,
   ⟨{ key := "B", fields := [("itemType", "annotation"), ("annotationText", "second")] }, "ATT2"⟩,
   ⟨{ key := "C", fields := [("itemType", "annotation"), ("annotationText", "third")] }, "ATT2"⟩]

/-- A prepared export with one image annotation and one text annotation, used to
exercise the missing-image patch. -/
def c8Prepared : PreparedExport :=
  { markdownPath := "/md/@k.md", title := "T", author := "A", year := "2020", company := "C",
    abstractText := "Abs",
    groupedAnnotations :=
      [⟨"Yellow", [{ key := "A1", text := "Body", comment := "", pageLabel := "1" }]⟩,
       ⟨"Blue", [{ key := "A2", text := "Img", comment := "", pageLabel := "2",
                   imageMarkdownPath := some "../att/k/image_1.png" }]⟩],
    imagePlans := [⟨"A2", "ATT", "image_1.png", "/att/k/image_1.png", "../att/k/image_1.png"⟩] }

/-- A mixed-color annotation list exercising the grouping partition. -/
def c10Anns : List RenderAnnotationWithColor :=
  [⟨⟨"K1", "first", "", "1", none, none⟩, "Yellow"⟩,
   ⟨⟨"K2", "second", "", "2", none, none⟩, "Blue"⟩,
   ⟨⟨"K3", "third", "", "3", none, none⟩, "Yellow"⟩]

/-! ### Lemmas: the year scanner versus its positional characterization -/

theorem yearRunAtFrom_succ (prev : Option Char) (c : Char) (rest : List Char) (i : Nat) :
    yearRunAtFrom prev (c :: rest) (i + 1) = yearRunAtFrom (some c) rest i := by
  cases i <;> rfl

theorem yearRunAtFrom_short (prev : Option Char) (cs : List Char) (i : Nat)
    (h : cs.length < 4) : yearRunAtFrom prev cs i = false := by
  unfold yearRunAtFrom
  simp
  intro _ h2
  exact absurd h2 (by omega)

theorem find?_yearRun_short (prev : Option Char) (cs : List Char) (h : cs.length < 4) :
    (List.range cs.length).find? (yearRunAtFrom prev cs) = none :=
  List.find?_eq_none.mpr (fun i _ => by rw [yearRunAtFrom_short prev cs i h]; simp)

theorem scanner_cond_eq (prev : Option Char) (c c2 c3 c4 : Char) (rest2 : List Char) :
    ((match prev with | none => true | some p => !isWordChar p) &&
      c.isDigit && c2.isDigit && c3.isDigit && c4.isDigit &&
      (match rest2 with | [] => true | n :: _ => !isWordChar n)) =
      yearRunAtFrom prev (c :: c2 :: c3 :: c4 :: rest2) 0 := by
  unfold yearRunAtFrom
  cases rest2 <;> simp [Bool.and_assoc]

theorem findFourDigitBounded_cons4 (prev : Option Char) (c c2 c3 c4 : Char) (rest2 : List Char) :
    findFourDigitBounded prev (c :: c2 :: c3 :: c4 :: rest2) =
      (if yearRunAtFrom prev (c :: c2 :: c3 :: c4 :: rest2) 0 = true then some [c, c2, c3, c4]
       else findFourDigitBounded (some c) (c2 :: c3 :: c4 :: rest2)) := by
  rw [show findFourDigitBounded prev (c :: c2 :: c3 :: c4 :: rest2) =
    (if ((match prev with | none => true | some p => !isWordChar p) &&
      c.isDigit && c2.isDigit && c3.isDigit && c4.isDigit &&
      (match rest2 with | [] => true | n :: _ => !isWordChar n)) = true then
        some [c, c2, c3, c4]
      else findFourDigitBounded (some c) (c2 :: c3 :: c4 :: rest2)) from rfl,
    scanner_cond_eq]

theorem findFourDigitBounded_eq (cs : List Char) : ∀ (prev : Option Char),
    findFourDigitBounded prev cs =
      ((List.range cs.length).find? (yearRunAtFrom prev cs)).map (fun i => (cs.drop i).take 4) := by
  induction cs with
  | nil => intro prev; simp [findFourDigitBounded]
  | cons c rest ih =>
    intro prev
    cases rest with
    | nil => rw [find?_yearRun_short prev _ (by simp)]; rfl
    | cons c2 rest =>
      cases rest with
      | nil => rw [find?_yearRun_short prev _ (by simp)]; rfl
      | cons c3 rest =>
        cases rest with
        | nil => rw [find?_yearRun_short prev _ (by simp)]; rfl
        | cons c4 rest2 =>
          rw [findFourDigitBounded_cons4]
          rw [show (c :: c2 :: c3 :: c4 :: rest2).length =
            (c2 :: c3 :: c4 :: rest2).length + 1 from rfl, List.range_succ_eq_map]
          by_cases h0 : yearRunAtFrom prev (c :: c2 :: c3 :: c4 :: rest2) 0 = true
          · rw [if_pos h0, List.find?_cons_of_pos _ h0]
            rfl
          · rw [if_neg h0, List.find?_cons_of_neg _ h0, ih (some c), List.find?_map]
            have hsucc : (yearRunAtFrom prev (c :: c2 :: c3 :: c4 :: rest2) ∘ Nat.succ) =
                yearRunAtFrom (some c) (c2 :: c3 :: c4 :: rest2) := by
              funext i
              exact yearRunAtFrom_succ prev c _ i
            rw [hsucc, Option.map_map]
            rfl

theorem extractYear_eq_firstBoundedYear (s : String) : extractYear s = firstBoundedYear s := by
  unfold extractYear firstBoundedYear
  rw [findFourDigitBounded_eq]
  cases (List.range s.data.length).find? (yearRunAtFrom none s.data) <;> rfl

/-! ### Claim theorems -/

set_option maxRecDepth 10000 in
/-- C1: on the spec's end-to-end example (item metadata with one Yellow text
annotation on page 3 with a comment, and one Blue image annotation on page 4),
`generateMarkdown` produces exactly the expected document: the four
single-quote-escaped frontmatter fields in default order Title, Author, Year,
Company; the Abstract callout with the abstract sentence; the `## Annotations`
heading; `### Yellow` before `### Blue`; the Yellow text line suffixed with a
page-3 reference linking to that annotation's own key followed by a `Comment:`
line; and the Blue section embedding the image's relative path. -/
theorem generateMarkdown_end_to_end_example : generateMarkdown c1Input = c1Expected := by
  decide

/-- C9, counterexample: for the date `"a2020"` the claim's "first 4-digit run in
the date field" is `"2020"`, but the year resolved by `prepareExport` is `""`,
because the regex `\b(\d{4})\b` requires a word boundary and `a` is a word
character. -/
theorem prepareExport_year_counterexample :
    (prepareExport c9Input).year = "" ∧
      firstFourConsecutiveDigits (getField c9Input.item "date") = "2020" := by
  decide

/-- C9, amended: for every input, the year resolved by `prepareExport` is the
first **word-boundary-delimited** 4-digit run of the date field (a run neither
preceded nor followed by an ASCII letter, digit, or underscore), and the empty
string when the field has no such run. -/
theorem prepareExport_year_first_bounded_run (input : ExportPreparationInput) :
    (prepareExport input).year = firstBoundedYear (getField input.item "date") := by
  rw [show (prepareExport input).year = extractYear (getField input.item "date") from rfl]
  exact extractYear_eq_firstBoundedYear _

set_option maxRecDepth 10000 in
/-- C6: `resolveCiteKey` returns the first non-empty trimmed value among the
direct fields in priority order `data.citationKey`, `data.citekey`,
`data.bibtexKey`, `meta.citationKey`; failing those, the first value captured
from scanning the `extra` field line by line against the case-insensitive label
patterns (`Citation Key:`, `citekey:`, `BBT Citation Key:`), trimmed; failing
both, it fails with the `CiteKeyMissing` error carrying remediation guidance.
In particular the item with only the extra line `Citation Key: smith2020foo`
resolves to `smith2020foo`, and an item with neither source fails. -/
theorem resolveCiteKey_priority (item : ZoteroItemData) :
    (normalizeCandidate (dataField item "citationKey") ≠ "" →
      resolveCiteKey item = .ok (normalizeCandidate (dataField item "citationKey"))) ∧
    (normalizeCandidate (dataField item "citationKey") = "" →
      normalizeCandidate (dataField item "citekey") ≠ "" →
      resolveCiteKey item = .ok (normalizeCandidate (dataField item "citekey"))) ∧
    (normalizeCandidate (dataField item "citationKey") = "" →
      normalizeCandidate (dataField item "citekey") = "" →
      normalizeCandidate (dataField item "bibtexKey") ≠ "" →
      resolveCiteKey item = .ok (normalizeCandidate (dataField item "bibtexKey"))) ∧
    (normalizeCandidate (dataField item "citationKey") = "" →
      normalizeCandidate (dataField item "citekey") = "" →
      normalizeCandidate (dataField item "bibtexKey") = "" →
      normalizeCandidate item.metaCitationKey ≠ "" →
      resolveCiteKey item = .ok (normalizeCandidate item.metaCitationKey)) ∧
    (normalizeCandidate (dataField item "citationKey") = "" →
      normalizeCandidate (dataField item "citekey") = "" →
      normalizeCandidate (dataField item "bibtexKey") = "" →
      normalizeCandidate item.metaCitationKey = "" →
      extractFromExtra (dataField item "extra") ≠ "" →
      resolveCiteKey item = .ok (extractFromExtra (dataField item "extra"))) ∧
    (normalizeCandidate (dataField item "citationKey") = "" →
      normalizeCandidate (dataField item "citekey") = "" →
      normalizeCandidate (dataField item "bibtexKey") = "" →
      normalizeCandidate item.metaCitationKey = "" →
      extractFromExtra (dataField item "extra") = "" →
      resolveCiteKey item = .error CITE_KEY_MISSING_MESSAGE) ∧
    strContains CITE_KEY_MISSING_MESSAGE "Better BibTeX" = true ∧
    resolveCiteKey c6ExtraItem = .ok "smith2020foo" ∧
    resolveCiteKey c6BareItem = .error CITE_KEY_MISSING_MESSAGE := by
  refine ⟨?_, ?_, ?_, ?_, ?_, ?_, by decide, by decide, by decide⟩ <;>
    { intros
      simp only [resolveCiteKey, firstNonEmptyCandidate, *, ne_eq, ite_true, ite_false]
      simp [*] }

set_option maxRecDepth 10000 in
/-- C6 witness: the theorem applied to the three concrete items, each hypothesis
discharged by evaluation. -/
theorem resolveCiteKey_priority_witness :
    resolveCiteKey c6DirectItem = .ok "direct2020key" ∧
      resolveCiteKey c6ExtraItem = .ok "smith2020foo" ∧
      resolveCiteKey c6BareItem = .error CITE_KEY_MISSING_MESSAGE := by
  refine ⟨?_, ?_, ?_⟩
  · have h := (resolveCiteKey_priority c6DirectItem).1 (by decide)
    rw [h]; decide
  · have h := (resolveCiteKey_priority c6ExtraItem).2.2.2.2.1 (by decide) (by decide)
      (by decide) (by decide) (by decide)
    rw [h]; decide
  · exact (resolveCiteKey_priority c6BareItem).2.2.2.2.2.1 (by decide) (by decide)
      (by decide) (by decide) (by decide)

/-- C3, counterexample: the claim says the local structured store (the spec's
primary backend) is attempted first for item lookup; but when both backends
would succeed with different records, `getItem` returns the HTTP API's record,
while a primary-first strategy would return the store's. -/
theorem getItem_order_counterexample :
    getItem (.ok c3HttpItem) (.ok c3SqliteItem) = .ok c3HttpItem ∧
      c3HttpItem ≠ c3SqliteItem ∧
      getItemSpecPrimaryFirst (.ok c3HttpItem) (.ok c3SqliteItem) = .ok c3SqliteItem := by
  decide

/-- C3, amended: for item lookup and search, the **HTTP API** backend is
attempted first; on any failure of it the SQLite store fallback is tried; only
when both fail does the operation throw a single aggregated error embedding
both underlying failure messages (so it never silently returns an empty result
when both attempts threw). -/
theorem backend_fallback_order (apiI sqlI : Except String ZoteroItemData)
    (apiS : Except String (List ZoteroItemData)) (sqlS : Except String (List ItemSummary)) :
    (∀ v, apiI = .ok v → getItem apiI sqlI = .ok v) ∧
    (∀ m v, apiI = .error m → sqlI = .ok v → getItem apiI sqlI = .ok v) ∧
    (∀ m1 m2, apiI = .error m1 → sqlI = .error m2 →
      getItem apiI sqlI = .error ("Zotero item lookup failed via HTTP API (" ++ m1 ++
        ") and SQLite fallback (" ++ m2 ++ ").")) ∧
    (∀ raw, apiS = .ok raw →
      searchItems apiS sqlS = .ok (sanitizeSearchResults (searchSummaries raw))) ∧
    (∀ m rs, apiS = .error m → sqlS = .ok rs →
      searchItems apiS sqlS = .ok (sanitizeSearchResults rs)) ∧
    (∀ m1 m2, apiS = .error m1 → sqlS = .error m2 →
      searchItems apiS sqlS = .error ("Zotero search failed via HTTP API (" ++ m1 ++
        ") and SQLite fallback (" ++ m2 ++ ").")) := by
  refine ⟨?_, ?_, ?_, ?_, ?_, ?_⟩ <;> intros <;> subst_vars <;> rfl

/-- C3 witness: the fallback and the aggregated both-failed error at concrete
outcomes, via `backend_fallback_order`. -/
theorem backend_fallback_order_witness :
    getItem (.error "api down") (.ok c3SqliteItem) = .ok c3SqliteItem ∧
      searchItems (.error "api down") (.error "db locked") =
        .error "Zotero search failed via HTTP API (api down) and SQLite fallback (db locked)." := by
  constructor
  · exact (backend_fallback_order (.error "api down") (.ok c3SqliteItem)
      (.ok []) (.ok [])).2.1 "api down" c3SqliteItem rfl rfl
  · exact (backend_fallback_order (.ok c3HttpItem) (.ok c3HttpItem)
      (.error "api down") (.error "db locked")).2.2.2.2.2 "api down" "db locked" rfl rfl

/-! ### Lemmas: first-occurrence deduplication -/

theorem dedupFirstAux_cons (seen : List String) (y : String) (ys : List String) :
    dedupFirstAux seen (y :: ys) =
      if seen.contains y then dedupFirstAux seen ys
      else y :: dedupFirstAux (seen ++ [y]) ys := rfl

theorem dedupFirstAux_mem (l : List String) : ∀ (seen : List String) (x : String),
    x ∈ dedupFirstAux seen l ↔ (x ∈ l ∧ x ∉ seen) := by
  induction l with
  | nil => intro seen x; simp [dedupFirstAux]
  | cons y ys ih =>
    intro seen x
    rw [dedupFirstAux_cons]
    by_cases hy : seen.contains y
    · rw [if_pos hy, ih]
      have hymem : y ∈ seen := by simpa using hy
      constructor
      · rintro ⟨hx, hns⟩; exact ⟨List.mem_cons_of_mem _ hx, hns⟩
      · rintro ⟨hx, hns⟩
        rcases List.mem_cons.mp hx with rfl | hx
        · exact absurd hymem hns
        · exact ⟨hx, hns⟩
    · rw [if_neg hy]
      have hynot : y ∉ seen := by simpa using hy
      simp only [List.mem_cons, ih, List.mem_append, List.mem_singleton]
      constructor
      · rintro (rfl | ⟨hx, hns⟩)
        · exact ⟨Or.inl rfl, hynot⟩
        · exact ⟨Or.inr hx, fun h => hns (Or.inl h)⟩
      · rintro ⟨hxy | hx, hns⟩
        · exact Or.inl hxy
        · by_cases hxy : x = y
          · exact Or.inl hxy
          · refine Or.inr ⟨hx, ?_⟩
            rintro (h | h)
            · exact hns h
            · rcases h with h | h
              · exact hxy h
              · exact absurd h (List.not_mem_nil x)

theorem dedupFirstAux_nodup (l : List String) : ∀ (seen : List String),
    (dedupFirstAux seen l).Nodup := by
  induction l with
  | nil => intro seen; simp [dedupFirstAux]
  | cons y ys ih =>
    intro seen
    rw [dedupFirstAux_cons]
    by_cases hy : seen.contains y
    · rw [if_pos hy]; exact ih seen
    · rw [if_neg hy]
      refine List.nodup_cons.mpr ⟨?_, ih _⟩
      rw [dedupFirstAux_mem]
      rintro ⟨-, hns⟩
      exact hns (by simp)

theorem normalizePropertyOrder_mem (o : List String) (x : String) :
    x ∈ normalizePropertyOrder (some o) ↔
      (x ∈ o ∧ jsInPropertyLabels x = true) ∨ x ∈ DEFAULT_PROPERTY_ORDER := by
  unfold normalizePropertyOrder
  simp only [Option.getD_some]
  set d := dedupFirst (o.filter jsInPropertyLabels) with hd
  have hdmem : ∀ y, y ∈ d ↔ y ∈ o ∧ jsInPropertyLabels y = true := by
    intro y
    rw [show (y ∈ d) = (y ∈ dedupFirstAux [] (o.filter jsInPropertyLabels)) from rfl,
      dedupFirstAux_mem]
    simp [List.mem_filter]
  simp only [List.mem_append, List.mem_filter]
  constructor
  · rintro (h | ⟨h, -⟩)
    · exact Or.inl ((hdmem x).mp h)
    · exact Or.inr h
  · rintro (h | h)
    · exact Or.inl ((hdmem x).mpr h)
    · by_cases hxd : x ∈ d
      · exact Or.inl hxd
      · exact Or.inr ⟨h, by simpa using hxd⟩

theorem normalizePropertyOrder_nodup (o : List String) :
    (normalizePropertyOrder (some o)).Nodup := by
  unfold normalizePropertyOrder
  simp only [Option.getD_some]
  set d := dedupFirst (o.filter jsInPropertyLabels) with hd
  refine List.Nodup.append (dedupFirstAux_nodup _ _) (List.Nodup.filter _ (by decide)) ?_
  intro x hxd hxf
  rw [List.mem_filter] at hxf
  exact absurd (by simpa using hxd) (by simpa using hxf.2)

theorem normalizePropertyOrder_perm_iff (o : List String) :
    (normalizePropertyOrder (some o)).Perm DEFAULT_PROPERTY_ORDER ↔
      ∀ k ∈ o, jsInPropertyLabels k = true → k ∈ DEFAULT_PROPERTY_ORDER := by
  constructor
  · intro h k hk hin
    exact h.mem_iff.mp ((normalizePropertyOrder_mem o k).mpr (Or.inl ⟨hk, hin⟩))
  · intro hsub
    refine (List.perm_ext_iff_of_nodup (normalizePropertyOrder_nodup o) (by decide)).mpr ?_
    intro a
    rw [normalizePropertyOrder_mem]
    constructor
    · rintro (⟨ha, hin⟩ | h)
      · exact hsub a ha hin
      · exact h
    · exact Or.inr

set_option maxRecDepth 10000 in
/-- C7 counterexample: the supplied property order `["toString"]` refutes the
original "unknown keys dropped, so the renderer emits the four frontmatter
property lines": `toString` is not one of the four canonical keys, yet
`"toString" in PROPERTY_LABELS` holds in JS because the name is inherited from
`Object.prototype`, so sanitization keeps it and the renderer emits five
frontmatter property lines — the extra first one labelled with the coerced
inherited native function and valued, through `metadataValue`'s fallthrough,
at the company field. -/
theorem generateMarkdown_property_order_counterexample :
    ¬ "toString" ∈ DEFAULT_PROPERTY_ORDER ∧
    jsInPropertyLabels "toString" = true ∧
    normalizePropertyOrder (some ["toString"]) =
      ["toString", "title", "author", "year", "company"] ∧
    ¬ (normalizePropertyOrder (some ["toString"])).Perm DEFAULT_PROPERTY_ORDER ∧
    ((generateMarkdownLines c7Input).drop 3).take 5 =
      ["function toString() \x7b [native code] \x7d: " ++ singleQuoteStr ++ "ACME" ++ singleQuoteStr,
       "Title: " ++ singleQuoteStr ++ "T" ++ singleQuoteStr,
       "Author: " ++ singleQuoteStr ++ "A" ++ singleQuoteStr,
       "Year: " ++ singleQuoteStr ++ "2020" ++ singleQuoteStr,
       "Company: " ++ singleQuoteStr ++ "ACME" ++ singleQuoteStr] := by
  refine ⟨by decide, by decide, by decide, fun h => absurd h.length_eq (by decide), by decide⟩

set_option maxRecDepth 10000 in
/-- C7 (corrected): with no supplied property order the renderer uses the
default `title, author, year, company`; for every supplied order sanitization
is total (malformed settings never make the renderer fail), removes duplicates
keeping the first occurrence, appends the canonical keys missing from the
supplied order in their default order, and the lines directly after the
three-line preamble are exactly the sanitized order's property lines. The
original "unknown keys dropped" must be amended: the filter is the JS `in`
operator, which also accepts inherited `Object.prototype` property names, so a
key of the sanitized order is either a supplied key passing
`key in PROPERTY_LABELS` — canonical or an `Object.prototype` name — or a
canonical key, and the sanitized order is a permutation of the four canonical
keys iff the supplied order contains no non-canonical `Object.prototype`
name. A concrete sanitization instance is included. -/
theorem generateMarkdown_property_order (o : List String) (input : ExportInput) :
    normalizePropertyOrder none = DEFAULT_PROPERTY_ORDER ∧
    (normalizePropertyOrder (some o)).Nodup ∧
    (∀ k ∈ DEFAULT_PROPERTY_ORDER, k ∈ normalizePropertyOrder (some o)) ∧
    (∀ x, x ∈ normalizePropertyOrder (some o) ↔
      (x ∈ o ∧ jsInPropertyLabels x = true) ∨ x ∈ DEFAULT_PROPERTY_ORDER) ∧
    ((normalizePropertyOrder (some o)).Perm DEFAULT_PROPERTY_ORDER ↔
      ∀ k ∈ o, jsInPropertyLabels k = true → k ∈ DEFAULT_PROPERTY_ORDER) ∧
    (generateMarkdownLines input).take 3 = ["---", "tags:", "  - type/source/paper"] ∧
    ((generateMarkdownLines input).drop 3).take
        (normalizePropertyOrder (input.templateSettings.bind (·.propertyOrder))).length =
      (normalizePropertyOrder (input.templateSettings.bind (·.propertyOrder))).map
        (propertyLine input) ∧
    normalizePropertyOrder (some ["year", "title", "bogus", "year", "company"]) =
      ["year", "title", "company", "author"] := by
  refine ⟨by decide, normalizePropertyOrder_nodup o,
    fun k hk => (normalizePropertyOrder_mem o k).mpr (Or.inr hk),
    normalizePropertyOrder_mem o,
    normalizePropertyOrder_perm_iff o, ?_, ?_, by decide⟩
  · simp only [generateMarkdownLines]
    rw [List.append_assoc, List.append_assoc, List.append_assoc, List.append_assoc]
    exact List.take_left' rfl
  · simp only [generateMarkdownLines]
    rw [List.append_assoc, List.append_assoc, List.append_assoc, List.append_assoc]
    rw [List.drop_left' (show (["---", "tags:", "  - type/source/paper"] : List String).length = 3 from rfl)]
    exact List.take_left' (List.length_map _ _)

/-! ### Lemmas: the color comparator as a total order -/

theorem charListCompare_self : ∀ (cs : List Char), charListCompare cs cs = .eq
  | [] => rfl
  | c :: rest => by
    unfold charListCompare
    simp only [if_neg (lt_irrefl c)]
    exact charListCompare_self rest

theorem charListCompare_eq_iff : ∀ (as bs : List Char), charListCompare as bs = .eq ↔ as = bs
  | [], [] => by simp [charListCompare]
  | [], _ :: _ => by simp [charListCompare]
  | _ :: _, [] => by simp [charListCompare]
  | a :: as, b :: bs => by
    unfold charListCompare
    by_cases hab : a < b
    · simp only [if_pos hab]
      constructor
      · intro h; cases h
      · rintro h
        rw [List.cons.injEq] at h
        exact absurd (h.1 ▸ hab) (lt_irrefl b)
    · by_cases hba : b < a
      · simp only [if_neg hab, if_pos hba]
        constructor
        · intro h; cases h
        · rintro h
          rw [List.cons.injEq] at h
          exact absurd (h.1 ▸ hba) (lt_irrefl b)
      · have heq : a = b := le_antisymm (not_lt.mp hba) (not_lt.mp hab)
        subst heq
        simp only [if_neg hab, if_neg hba, List.cons.injEq, true_and]
        exact charListCompare_eq_iff as bs

theorem charListCompare_swap : ∀ (as bs : List Char),
    charListCompare bs as = (charListCompare as bs).swap
  | [], [] => rfl
  | [], _ :: _ => rfl
  | _ :: _, [] => rfl
  | a :: as, b :: bs => by
    unfold charListCompare
    by_cases hab : a < b
    · have hba : ¬ b < a := lt_asymm hab
      simp only [if_pos hab, if_neg hba]
      rfl
    · by_cases hba : b < a
      · simp only [if_pos hba, if_neg hab]
        rfl
      · simp only [if_neg hab, if_neg hba]
        exact charListCompare_swap as bs

theorem charListCompare_lt_trans : ∀ (as bs cs : List Char),
    charListCompare as bs = .lt → charListCompare bs cs = .lt → charListCompare as cs = .lt
  | as, [], _ => by
    intro h1 _
    cases as with
    | nil => simp [charListCompare] at h1
    | cons a as2 => simp [charListCompare] at h1
  | as, b :: bs, [] => by
    intro _ h2
    simp [charListCompare] at h2
  | [], b :: bs, c :: cs => by intro _ _; rfl
  | a :: as, b :: bs, c :: cs => by
    intro h1 h2
    unfold charListCompare at h1 h2 ⊢
    by_cases hab : a < b
    · by_cases hbc : b < c
      · simp only [if_pos (lt_trans hab hbc)]
      · by_cases hcb : c < b
        · simp only [if_neg hbc, if_pos hcb] at h2
          exact absurd h2 (by decide)
        · have heq : b = c := le_antisymm (not_lt.mp hcb) (not_lt.mp hbc)
          subst heq
          simp only [if_pos hab]
    · by_cases hba : b < a
      · simp only [if_neg hab, if_pos hba] at h1
        exact absurd h1 (by decide)
      · have heq : a = b := le_antisymm (not_lt.mp hba) (not_lt.mp hab)
        subst heq
        by_cases hac : a < c
        · simp only [if_pos hac]
        · by_cases hca : c < a
          · simp only [if_neg hac, if_pos hca] at h2
            exact absurd h2 (by decide)
          · have heq2 : a = c := le_antisymm (not_lt.mp hca) (not_lt.mp hac)
            subst heq2
            simp only [if_neg hab] at h1 h2 ⊢
            exact charListCompare_lt_trans as bs cs h1 h2

theorem charListCompare_prefix_lt : ∀ (as bs : List Char),
    as.isPrefixOf bs = true → as ≠ bs → charListCompare as bs = .lt
  | [], [] => by intro _ h; exact absurd rfl h
  | [], _ :: _ => fun _ _ => rfl
  | _ :: _, [] => by intro h _; simp [List.isPrefixOf] at h
  | a :: as, b :: bs => by
    intro h hne
    simp only [List.isPrefixOf, Bool.and_eq_true, beq_iff_eq] at h
    obtain ⟨rfl, h2⟩ := h
    unfold charListCompare
    simp only [if_neg (lt_irrefl a)]
    exact charListCompare_prefix_lt as bs h2 (fun hh => hne (by rw [hh]))

theorem localeCompareInt_self (a : String) : localeCompareInt a a = 0 := by
  unfold localeCompareInt
  rw [charListCompare_self]

theorem localeCompareInt_antisymm (a b : String) :
    localeCompareInt b a = -localeCompareInt a b := by
  unfold localeCompareInt
  rw [charListCompare_swap]
  cases charListCompare a.data b.data <;> rfl

theorem localeCompareInt_eq_zero_iff (a b : String) : localeCompareInt a b = 0 ↔ a = b := by
  unfold localeCompareInt
  cases h : charListCompare a.data b.data with
  | lt => simp only []; constructor
          · intro hh; cases hh
          · intro hh
            subst hh
            rw [charListCompare_self] at h
            cases h
  | eq =>
    have hab : a = b := by
      have hd := (charListCompare_eq_iff a.data b.data).mp h
      cases a; cases b
      exact congrArg String.mk hd
    subst hab
    simp
  | gt => constructor
          · intro hh; cases hh
          · intro hh
            subst hh
            rw [charListCompare_self] at h
            cases h

theorem localeCompareInt_le_trans (a b c : String) (h1 : localeCompareInt a b ≤ 0)
    (h2 : localeCompareInt b c ≤ 0) : localeCompareInt a c ≤ 0 := by
  by_cases hab : localeCompareInt a b = 0
  · rw [(localeCompareInt_eq_zero_iff a b).mp hab]
    exact h2
  · by_cases hbc : localeCompareInt b c = 0
    · rw [← (localeCompareInt_eq_zero_iff b c).mp hbc]
      exact h1
    · have hlt1 : charListCompare a.data b.data = .lt := by
        unfold localeCompareInt at h1 hab
        cases h : charListCompare a.data b.data <;> simp [h] at h1 hab ⊢
      have hlt2 : charListCompare b.data c.data = .lt := by
        unfold localeCompareInt at h2 hbc
        cases h : charListCompare b.data c.data <;> simp [h] at h2 hbc ⊢
      unfold localeCompareInt
      rw [charListCompare_lt_trans _ _ _ hlt1 hlt2]
      decide

theorem compareColorGroups_eq (a b : String) :
    compareColorGroups a b =
      if colorRank a - colorRank b ≠ 0 then colorRank a - colorRank b
      else localeCompareInt a b := by
  unfold compareColorGroups
  by_cases h : colorRank a - colorRank b ≠ 0
  · simp only [if_pos h]
  · simp only [if_neg h, ite_self]

theorem compareColorGroups_self (a : String) : compareColorGroups a a = 0 := by
  rw [compareColorGroups_eq]
  simp [localeCompareInt_self]

theorem compareColorGroups_antisymm (a b : String) :
    compareColorGroups a b + compareColorGroups b a = 0 := by
  rw [compareColorGroups_eq, compareColorGroups_eq]
  by_cases h : colorRank a - colorRank b ≠ 0
  · rw [if_pos h, if_pos (by omega)]
    omega
  · rw [if_neg h, if_neg (by omega), localeCompareInt_antisymm a b]
    omega

theorem compareColorGroups_eq_zero (a b : String) (h : compareColorGroups a b = 0) : a = b := by
  rw [compareColorGroups_eq] at h
  by_cases hr : colorRank a - colorRank b ≠ 0
  · rw [if_pos hr] at h
    exact absurd h hr
  · rw [if_neg hr] at h
    exact (localeCompareInt_eq_zero_iff a b).mp h

theorem compareColorGroups_trans (a b c : String) (h1 : compareColorGroups a b ≤ 0)
    (h2 : compareColorGroups b c ≤ 0) : compareColorGroups a c ≤ 0 := by
  rw [compareColorGroups_eq] at h1 h2 ⊢
  by_cases hab : colorRank a - colorRank b ≠ 0
  · rw [if_pos hab] at h1
    by_cases hbc : colorRank b - colorRank c ≠ 0
    · rw [if_pos hbc] at h2
      rw [if_pos (by omega)]
      omega
    · rw [if_pos (by omega)]
      omega
  · rw [if_neg hab] at h1
    by_cases hbc : colorRank b - colorRank c ≠ 0
    · rw [if_pos hbc] at h2
      rw [if_pos (by omega)]
      omega
    · rw [if_neg hbc] at h2
      rw [if_neg (by omega)]
      exact localeCompareInt_le_trans a b c h1 h2

theorem colorRank_lt_cc (a b : String) (h : colorRank a < colorRank b) :
    compareColorGroups a b < 0 := by
  rw [compareColorGroups_eq, if_pos (by omega)]
  omega

theorem jsIndexOf_eq_neg_one (l : List String) (x : String) (h : ∀ a ∈ l, a ≠ x) :
    jsIndexOf l x = -1 := by
  induction l with
  | nil => rfl
  | cons a rest ih =>
    unfold jsIndexOf
    rw [if_neg (h a (List.mem_cons_self a rest))]
    rw [ih (fun b hb => h b (List.mem_cons_of_mem a hb))]
    decide

theorem colorRank_variant (s : String) (hstart : jsStartsWith s "Unknown" = true)
    (hne : s ≠ "Unknown") : colorRank s = 7 := by
  have hidx : jsIndexOf FIXED_ORDER s = -1 := by
    refine jsIndexOf_eq_neg_one _ _ ?_
    intro a ha hax
    subst hax
    simp only [FIXED_ORDER, List.mem_cons, List.not_mem_nil, or_false] at ha
    rcases ha with rfl | rfl | rfl | rfl | rfl | rfl | rfl | rfl
    · exact absurd hstart (by decide)
    · exact absurd hstart (by decide)
    · exact absurd hstart (by decide)
    · exact absurd hstart (by decide)
    · exact absurd hstart (by decide)
    · exact absurd hstart (by decide)
    · exact absurd hstart (by decide)
    · exact hne rfl
  unfold colorRank
  rw [hidx, hstart]
  decide

theorem sortGroups_idempotent (gs : List ColorGroup) :
    sortGroups (sortGroups gs) = sortGroups gs := by
  haveI htot : IsTotal ColorGroup groupOrder := ⟨fun x y => by
    unfold groupOrder
    have h := compareColorGroups_antisymm x.colorName y.colorName
    by_cases hle : compareColorGroups x.colorName y.colorName ≤ 0
    · exact Or.inl hle
    · right; omega⟩
  haveI htrans : IsTrans ColorGroup groupOrder := ⟨fun x y z hxy hyz =>
    compareColorGroups_trans _ _ _ hxy hyz⟩
  unfold sortGroups
  exact (List.sorted_insertionSort groupOrder gs).insertionSort_eq

/-- C5: `compareColorGroups` induces a total, deterministic order on color-name
strings consistent with the priority list Yellow, Green, Blue, Pink, Orange,
Purple, Gray, Unknown: it is reflexive-zero, antisymmetric, transitive, and zero
only on equal names; every `Unknown (...)` variant ranks immediately after plain
`Unknown` (after every canonical name); names of equal rank break ties by
lexicographic comparison of the full string; and sorting groups with it is
idempotent. -/
theorem compareColorGroups_total_order (a b c s : String) (gs : List ColorGroup) :
    compareColorGroups a a = 0 ∧
    compareColorGroups a b + compareColorGroups b a = 0 ∧
    (compareColorGroups a b = 0 → a = b) ∧
    (compareColorGroups a b ≤ 0 → compareColorGroups b c ≤ 0 → compareColorGroups a c ≤ 0) ∧
    (compareColorGroups "Yellow" "Green" < 0 ∧ compareColorGroups "Green" "Blue" < 0 ∧
     compareColorGroups "Blue" "Pink" < 0 ∧ compareColorGroups "Pink" "Orange" < 0 ∧
     compareColorGroups "Orange" "Purple" < 0 ∧ compareColorGroups "Purple" "Gray" < 0 ∧
     compareColorGroups "Gray" "Unknown" < 0) ∧
    (jsStartsWith s "Unknown" = true → s ≠ "Unknown" →
      compareColorGroups "Unknown" s < 0 ∧
      ∀ c' ∈ FIXED_ORDER, c' ≠ "Unknown" → compareColorGroups c' s < 0) ∧
    (colorRank a = colorRank b → compareColorGroups a b = localeCompareInt a b) ∧
    sortGroups (sortGroups gs) = sortGroups gs := by
  refine ⟨compareColorGroups_self a, compareColorGroups_antisymm a b,
    compareColorGroups_eq_zero a b, compareColorGroups_trans a b c, by decide, ?_, ?_,
    sortGroups_idempotent gs⟩
  · intro hstart hne
    have hrank : colorRank s = 7 := colorRank_variant s hstart hne
    constructor
    · rw [compareColorGroups_eq, if_neg (by rw [hrank]; decide)]
      unfold localeCompareInt
      rw [charListCompare_prefix_lt "Unknown".data s.data (by simpa [jsStartsWith] using hstart)
        (fun h => hne (by cases s; exact (congrArg String.mk h).symm))]
      decide
    · intro c' hc' hcne
      refine colorRank_lt_cc c' s ?_
      rw [hrank]
      simp only [FIXED_ORDER, List.mem_cons, List.not_mem_nil, or_false] at hc'
      rcases hc' with rfl | rfl | rfl | rfl | rfl | rfl | rfl | rfl
      · decide
      · decide
      · decide
      · decide
      · decide
      · decide
      · decide
      · exact absurd rfl hcne
  · intro hr
    rw [compareColorGroups_eq, if_neg (by omega)]

/-- C5 witness: transitivity, the variant ordering, the lexicographic tie-break,
and idempotence at concrete inputs, via `compareColorGroups_total_order`. -/
theorem compareColorGroups_total_order_witness :
    compareColorGroups "Yellow" "Unknown" ≤ 0 ∧
      compareColorGroups "Unknown" "Unknown (#000000)" < 0 ∧
      compareColorGroups "Unknown (#000000)" "Unknown (#ffffff)" =
        localeCompareInt "Unknown (#000000)" "Unknown (#ffffff)" ∧
      sortGroups (sortGroups [⟨"Blue", []⟩, ⟨"Yellow", []⟩]) =
        sortGroups [⟨"Blue", []⟩, ⟨"Yellow", []⟩] := by
  refine ⟨?_, ?_, ?_, ?_⟩
  · exact (compareColorGroups_total_order "Yellow" "Green" "Unknown" "x" []).2.2.2.1 (by decide) (by decide)
  · exact ((compareColorGroups_total_order "a" "b" "c" "Unknown (#000000)" []).2.2.2.2.2.1 (by decide) (by decide)).1
  · exact (compareColorGroups_total_order "Unknown (#000000)" "Unknown (#ffffff)" "c" "s" []).2.2.2.2.2.2.1 (by decide)
  · exact (compareColorGroups_total_order "a" "b" "c" "s" [⟨"Blue", []⟩, ⟨"Yellow", []⟩]).2.2.2.2.2.2.2

/-! ### Lemmas and theorems: the missing-image patch -/

/-- C8: `addMissingImageTodo` returns a new plan in which every annotation with
the given key has its image path cleared and the missing-image message attached,
every other annotation and every other field of the plan are unchanged, and no
annotation is dropped (group names and within-group shapes are preserved
element-wise); rendering the patched annotation yields its plain quote lines
plus a final `TODO:` line and no image embed. -/
theorem addMissingImageTodo_frame (prepared : PreparedExport) (key msg : String) :
    (addMissingImageTodo prepared key msg).markdownPath = prepared.markdownPath ∧
    (addMissingImageTodo prepared key msg).title = prepared.title ∧
    (addMissingImageTodo prepared key msg).author = prepared.author ∧
    (addMissingImageTodo prepared key msg).year = prepared.year ∧
    (addMissingImageTodo prepared key msg).company = prepared.company ∧
    (addMissingImageTodo prepared key msg).abstractText = prepared.abstractText ∧
    (addMissingImageTodo prepared key msg).imagePlans = prepared.imagePlans ∧
    (addMissingImageTodo prepared key msg).groupedAnnotations.map (·.colorName) =
      prepared.groupedAnnotations.map (·.colorName) ∧
    List.Forall₂ (fun g g' =>
      List.Forall₂ (fun a a' =>
        (a.key ≠ key → a' = a) ∧
        (a.key = key →
          a' = { a with imageMarkdownPath := none, missingImageMessage := some msg }))
        g.annotations g'.annotations)
      prepared.groupedAnnotations (addMissingImageTodo prepared key msg).groupedAnnotations ∧
    (msg ≠ "" → ∀ a : RenderAnnotation,
      annotationQuoteLines { a with imageMarkdownPath := none, missingImageMessage := some msg } =
        annotationQuoteLines { a with imageMarkdownPath := none, missingImageMessage := none } ++
          ["TODO: " ++ msg]) := by
  refine ⟨rfl, rfl, rfl, rfl, rfl, rfl, rfl, ?_, ?_, ?_⟩
  · simp only [addMissingImageTodo, List.map_map]
    rfl
  · simp only [addMissingImageTodo]
    rw [List.forall₂_map_right_iff, List.forall₂_same]
    intro g _
    rw [List.forall₂_map_right_iff, List.forall₂_same]
    intro a _
    refine ⟨fun h => by rw [if_pos h], fun h => by rw [if_neg (fun hne => hne h)]⟩
  · intro hmsg a
    unfold annotationQuoteLines
    simp [hmsg]

/-- C8 witness: the frame theorem applied to a concrete plan, key, and message. -/
theorem addMissingImageTodo_frame_witness :
    annotationQuoteLines (⟨"A2", "Img", "", "2", none, some "image missing"⟩ : RenderAnnotation) =
      annotationQuoteLines (⟨"A2", "Img", "", "2", none, none⟩ : RenderAnnotation) ++
        ["TODO: image missing"] ∧
    (addMissingImageTodo c8Prepared "A2" "image missing").imagePlans = c8Prepared.imagePlans := by
  constructor
  · exact (addMissingImageTodo_frame c8Prepared "A2" "image missing").2.2.2.2.2.2.2.2.2 (by decide)
      (⟨"A2", "Img", "", "2", none, none⟩ : RenderAnnotation)
  · exact (addMissingImageTodo_frame c8Prepared "A2" "image missing").2.2.2.2.2.2.1

/-! ### Lemmas and theorems: the annotation merge of the HTTP strategy -/

theorem addAnnotation_skip (es : List (String × MergeEntry)) (n : Nat) (d : AnnotationDiscovery)
    (h : (es.map Prod.fst).contains d.item.key) : addAnnotation (es, n) d = (es, n) := by
  unfold addAnnotation
  rw [if_pos h]

theorem addAnnotation_add (es : List (String × MergeEntry)) (n : Nat) (d : AnnotationDiscovery)
    (h : ¬ (es.map Prod.fst).contains d.item.key = true) :
    addAnnotation (es, n) d = (es ++ [(d.item.key, ⟨d.item, d.attachmentKey, n⟩)], n + 1) := by
  unfold addAnnotation
  rw [if_neg h]

theorem firstOccurrences_cons (seen : List String) (d : AnnotationDiscovery)
    (rest : List AnnotationDiscovery) :
    firstOccurrences seen (d :: rest) =
      if seen.contains d.item.key then firstOccurrences seen rest
      else d :: firstOccurrences (seen ++ [d.item.key]) rest := rfl

theorem foldl_addAnn (ds : List AnnotationDiscovery) :
    ∀ (es : List (String × MergeEntry)),
      ds.foldl addAnnotation (es, es.length) =
        (es ++ entriesFrom es.length (firstOccurrences (es.map Prod.fst) ds),
         es.length + (firstOccurrences (es.map Prod.fst) ds).length) := by
  induction ds with
  | nil => intro es; simp [firstOccurrences, entriesFrom]
  | cons d rest ih =>
    intro es
    rw [List.foldl_cons]
    by_cases hmem : (es.map Prod.fst).contains d.item.key
    · rw [addAnnotation_skip es es.length d hmem, ih es, firstOccurrences_cons,
        if_pos hmem]
    · rw [addAnnotation_add es es.length d hmem]
      have hlen : es.length + 1 =
          (es ++ [(d.item.key, (⟨d.item, d.attachmentKey, es.length⟩ : MergeEntry))]).length := by
        simp
      rw [show (es ++ [(d.item.key, (⟨d.item, d.attachmentKey, es.length⟩ : MergeEntry))],
            es.length + 1) =
          (es ++ [(d.item.key, (⟨d.item, d.attachmentKey, es.length⟩ : MergeEntry))],
            (es ++ [(d.item.key, (⟨d.item, d.attachmentKey, es.length⟩ : MergeEntry))]).length)
          from by rw [← hlen]]
      rw [ih (es ++ [(d.item.key, (⟨d.item, d.attachmentKey, es.length⟩ : MergeEntry))])]
      rw [firstOccurrences_cons, if_neg hmem]
      simp only [List.map_append, List.map_cons, List.map_nil, List.append_assoc,
        List.length_append, List.length_cons, List.length_nil, List.singleton_append,
        entriesFrom]
      rw [Prod.ext_iff]
      constructor
      · rfl
      · omega

theorem mergeAnnotations_eq (ds : List AnnotationDiscovery) :
    mergeAnnotations ds =
      ((entriesFrom 0 (firstOccurrences [] ds)).map Prod.snd).map
        (fun e => normalizeAnn e.item e.attachmentKey e.sortIndex) := by
  unfold mergeAnnotations
  rw [show (([], 0) : List (String × MergeEntry) × Nat) =
    (([] : List (String × MergeEntry)), ([] : List (String × MergeEntry)).length) from rfl]
  rw [foldl_addAnn]
  rfl

theorem entriesFrom_map_key (L : List AnnotationDiscovery) : ∀ (n : Nat),
    ((entriesFrom n L).map Prod.snd).map (fun e => e.item.key) = L.map (·.item.key) := by
  induction L with
  | nil => intro n; rfl
  | cons d rest ih =>
    intro n
    simp only [entriesFrom, List.map_cons]
    rw [ih (n + 1)]

theorem entriesFrom_get_sortIndex (L : List AnnotationDiscovery) : ∀ (n i : Nat)
    (h : i < ((entriesFrom n L).map Prod.snd).length),
    (((entriesFrom n L).map Prod.snd).get ⟨i, h⟩).sortIndex = n + i := by
  induction L with
  | nil => intro n i h; simp [entriesFrom] at h
  | cons d rest ih =>
    intro n i h
    cases i with
    | zero => rfl
    | succ j =>
      rw [show (((entriesFrom n (d :: rest)).map Prod.snd).get ⟨j + 1, h⟩) =
        (((entriesFrom (n + 1) rest).map Prod.snd).get ⟨j, by
          simpa [entriesFrom] using h⟩) from rfl]
      rw [ih (n + 1) j]
      omega

theorem entriesFrom_mem (L : List AnnotationDiscovery) : ∀ (n : Nat)
    (e : MergeEntry), e ∈ (entriesFrom n L).map Prod.snd →
    ∃ d ∈ L, e.item = d.item ∧ e.attachmentKey = d.attachmentKey := by
  induction L with
  | nil => intro n e he; simp [entriesFrom] at he
  | cons d rest ih =>
    intro n e he
    simp only [entriesFrom, List.map_cons, List.mem_cons] at he
    rcases he with rfl | he
    · exact ⟨d, List.mem_cons_self d rest, rfl, rfl⟩
    · obtain ⟨d', hd', h1, h2⟩ := ih (n + 1) e he
      exact ⟨d', List.mem_cons_of_mem d hd', h1, h2⟩

theorem firstOccurrences_map_key (ds : List AnnotationDiscovery) : ∀ (seen : List String),
    (firstOccurrences seen ds).map (·.item.key) = dedupFirstAux seen (ds.map (·.item.key)) := by
  induction ds with
  | nil => intro seen; rfl
  | cons d rest ih =>
    intro seen
    rw [firstOccurrences_cons, List.map_cons, dedupFirstAux_cons]
    by_cases h : seen.contains d.item.key
    · rw [if_pos h, if_pos h, ih]
    · rw [if_neg h, if_neg h, List.map_cons, ih]

theorem firstOccurrences_find? (ds : List AnnotationDiscovery) : ∀ (seen : List String)
    (d' : AnnotationDiscovery), d' ∈ firstOccurrences seen ds →
    ds.find? (fun x => x.item.key == d'.item.key) = some d' ∧ d'.item.key ∉ seen := by
  induction ds with
  | nil => intro seen d' h; simp [firstOccurrences] at h
  | cons d rest ih =>
    intro seen d' hmem
    rw [firstOccurrences_cons] at hmem
    by_cases h : seen.contains d.item.key
    · rw [if_pos h] at hmem
      obtain ⟨hfind, hns⟩ := ih seen d' hmem
      have hfalse : (d.item.key == d'.item.key) = false := by
        rw [beq_eq_false_iff_ne]
        intro hb
        exact hns (hb ▸ (by simpa using h))
      simp only [List.find?_cons, hfalse]
      exact ⟨hfind, hns⟩
    · rw [if_neg h] at hmem
      rcases List.mem_cons.mp hmem with rfl | hmem2
      · have htrue : (d'.item.key == d'.item.key) = true := by simp
        refine ⟨?_, by simpa using h⟩
        simp only [List.find?_cons, htrue]
      · obtain ⟨hfind, hns⟩ := ih _ d' hmem2
        have hne : d'.item.key ≠ d.item.key := fun he => hns (by simp [he])
        have hfalse : (d.item.key == d'.item.key) = false := by
          rw [beq_eq_false_iff_ne]
          exact fun hb => hne hb.symm
        simp only [List.find?_cons, hfalse]
        exact ⟨hfind, fun hseen => hns (by simp [hseen])⟩

theorem firstOccurrences_append (xs : List AnnotationDiscovery) :
    ∀ (seen : List String) (ys : List AnnotationDiscovery),
    firstOccurrences seen (xs ++ ys) =
      firstOccurrences seen xs ++
        firstOccurrences (seen ++ (firstOccurrences seen xs).map (·.item.key)) ys := by
  induction xs with
  | nil => intro seen ys; simp [firstOccurrences]
  | cons x xs ih =>
    intro seen ys
    rw [List.cons_append, firstOccurrences_cons, firstOccurrences_cons]
    by_cases h : seen.contains x.item.key
    · rw [if_pos h, if_pos h, ih]
    · rw [if_neg h, if_neg h, List.cons_append, ih]
      simp [List.append_assoc]

/-- C2: for every discovery sequence processed by `getAnnotationsForItem`'s
HTTP merge (direct item children and per-attachment children over both
endpoints), the merged list contains each annotation key exactly once, in
first-seen order (the keys are the first occurrences of the discovered keys);
each record's sort index equals its index in the merged list, i.e. the rank of
its key's first occurrence in discovery order; each record's content and
attachment attribution come from the first discovery bearing its key; and
re-discovering an already-seen key anywhere leaves the merged result unchanged. -/
theorem getAnnotationsForItem_merge_dedup (ds : List AnnotationDiscovery) :
    ((mergeAnnotations ds).map (·.key) = dedupFirst (ds.map (·.item.key))) ∧
    ((mergeAnnotations ds).map (·.key)).Nodup ∧
    (∀ (i : Nat) (h : i < (mergeAnnotations ds).length),
      ((mergeAnnotations ds).get ⟨i, h⟩).sortIndex = i) ∧
    (∀ a ∈ mergeAnnotations ds, ∃ d, ds.find? (fun x => x.item.key == a.key) = some d ∧
      a = normalizeAnn d.item d.attachmentKey a.sortIndex) ∧
    (∀ (xs : List AnnotationDiscovery) (d : AnnotationDiscovery) (ys : List AnnotationDiscovery),
      d.item.key ∈ xs.map (·.item.key) →
      mergeAnnotations (xs ++ d :: ys) = mergeAnnotations (xs ++ ys)) := by
  have hkey : (mergeAnnotations ds).map (·.key) = dedupFirst (ds.map (·.item.key)) := by
    rw [mergeAnnotations_eq, List.map_map]
    rw [show ((fun a : AnnotationModel => a.key) ∘
        fun e : MergeEntry => normalizeAnn e.item e.attachmentKey e.sortIndex) =
      (fun e : MergeEntry => e.item.key) from rfl]
    rw [entriesFrom_map_key, firstOccurrences_map_key]
    rfl
  refine ⟨hkey, by rw [hkey]; exact dedupFirstAux_nodup _ _, ?_, ?_, ?_⟩
  · intro i h
    have h2 : i < (((entriesFrom 0 (firstOccurrences [] ds)).map Prod.snd).map
        (fun e => normalizeAnn e.item e.attachmentKey e.sortIndex)).length := by
      rw [← mergeAnnotations_eq]; exact h
    have h3 : i < ((entriesFrom 0 (firstOccurrences [] ds)).map Prod.snd).length := by
      simpa using h2
    calc ((mergeAnnotations ds).get ⟨i, h⟩).sortIndex
        = ((((entriesFrom 0 (firstOccurrences [] ds)).map Prod.snd).map
            (fun e => normalizeAnn e.item e.attachmentKey e.sortIndex)).get
            ⟨i, h2⟩).sortIndex := by
          rw [List.get_of_eq (mergeAnnotations_eq ds)]
      _ = (((entriesFrom 0 (firstOccurrences [] ds)).map Prod.snd).get ⟨i, h3⟩).sortIndex := by
          simp [normalizeAnn]
      _ = 0 + i := entriesFrom_get_sortIndex _ 0 i h3
      _ = i := by omega
  · intro a ha
    rw [mergeAnnotations_eq] at ha
    rw [List.mem_map] at ha
    obtain ⟨e, he, rfl⟩ := ha
    obtain ⟨d', hd', hitem, hatt⟩ := entriesFrom_mem _ 0 e he
    obtain ⟨hfind, -⟩ := firstOccurrences_find? ds [] d' hd'
    refine ⟨d', ?_, ?_⟩
    · rw [show (normalizeAnn e.item e.attachmentKey e.sortIndex).key = e.item.key
        from rfl, hitem]
      exact hfind
    · rw [hitem, hatt]
      rfl
  · intro xs d ys hk
    have hS : d.item.key ∈ ([] : List String) ++ (firstOccurrences [] xs).map (·.item.key) := by
      rw [List.nil_append, firstOccurrences_map_key]
      rw [dedupFirstAux_mem]
      exact ⟨hk, by simp⟩
    rw [mergeAnnotations_eq, mergeAnnotations_eq, firstOccurrences_append,
      firstOccurrences_append]
    rw [firstOccurrences_cons, if_pos (by simpa using hS)]

set_option maxRecDepth 10000 in
/-- C2 witness: the merge theorem applied to a concrete overlapping discovery
sequence (key `B` discovered via two paths). -/
theorem getAnnotationsForItem_merge_dedup_witness :
    (mergeAnnotations c2Discoveries).map (·.key) = ["A", "B", "C"] ∧
    ((mergeAnnotations c2Discoveries).get ⟨2, by decide⟩).sortIndex = 2 ∧
    mergeAnnotations c2Discoveries =
      mergeAnnotations (c2Discoveries.take 2 ++ c2Discoveries.drop 3) := by
  refine ⟨?_, ?_, ?_⟩
  · rw [(getAnnotationsForItem_merge_dedup c2Discoveries).1]
    decide
  · exact (getAnnotationsForItem_merge_dedup c2Discoveries).2.2.1 2 (by decide)
  · exact (getAnnotationsForItem_merge_dedup c2Discoveries).2.2.2.2 (c2Discoveries.take 2)
      ⟨{ key := "B", fields := [("itemType", "annotation"), ("annotationText", "second")] }, "ATT2"⟩
      (c2Discoveries.drop 3) (by decide)

/-! ### Lemmas and theorems: the grouping partition -/

theorem pushToGroup_not_mem (c : String) (a : RenderAnnotation) :
    ∀ (acc : List (String × List RenderAnnotation)), (∀ e ∈ acc, e.1 ≠ c) →
    pushToGroup acc c a = acc ++ [(c, [a])] := by
  intro acc
  induction acc with
  | nil => intro _; rfl
  | cons e rest ih =>
    intro h
    obtain ⟨k, v⟩ := e
    unfold pushToGroup
    rw [if_neg (h (k, v) (List.mem_cons_self _ _))]
    rw [ih (fun e he => h e (List.mem_cons_of_mem _ he))]
    rfl

theorem map_update_id (c : String) (a : RenderAnnotation)
    (l : List (String × List RenderAnnotation)) (h : ∀ e ∈ l, e.1 ≠ c) :
    l.map (fun e => if e.1 = c then (e.1, e.2 ++ [a]) else e) = l := by
  rw [List.map_congr_left (fun e he => if_neg (h e he))]
  exact List.map_id l

theorem pushToGroup_mem (c : String) (a : RenderAnnotation) :
    ∀ (acc : List (String × List RenderAnnotation)), (acc.map Prod.fst).Nodup →
    c ∈ acc.map Prod.fst →
    pushToGroup acc c a = acc.map (fun e => if e.1 = c then (e.1, e.2 ++ [a]) else e) := by
  intro acc
  induction acc with
  | nil => intro _ h; simp at h
  | cons e rest ih =>
    intro hnd hmem
    obtain ⟨k, v⟩ := e
    unfold pushToGroup
    by_cases hk : k = c
    · rw [if_pos hk]
      subst hk
      rw [List.map_cons, if_pos rfl]
      have hrest : ∀ e ∈ rest, e.1 ≠ k := by
        intro e he hek
        have hm : e.1 ∈ rest.map Prod.fst := List.mem_map_of_mem Prod.fst he
        rw [hek] at hm
        exact (List.nodup_cons.mp hnd).1 hm
      rw [map_update_id k a rest hrest]
    · rw [if_neg hk]
      have hmem2 : c ∈ rest.map Prod.fst := by
        rcases List.mem_cons.mp hmem with h | h
        · exact absurd h.symm hk
        · exact h
      rw [ih (List.nodup_cons.mp hnd).2 hmem2, List.map_cons, if_neg hk]

theorem map_fst_update (c : String) (a : RenderAnnotation)
    (l : List (String × List RenderAnnotation)) :
    (l.map (fun e => if e.1 = c then (e.1, e.2 ++ [a]) else e)).map Prod.fst = l.map Prod.fst := by
  rw [List.map_map]
  refine List.map_congr_left (fun e _ => ?_)
  by_cases h : e.1 = c <;> simp [h]

theorem foldl_pushToGroup (anns : List RenderAnnotationWithColor) :
    ∀ (acc : List (String × List RenderAnnotation)), (acc.map Prod.fst).Nodup →
    anns.foldl (fun acc a => pushToGroup acc a.colorName a.ann) acc =
      acc.map (fun e => (e.1, e.2 ++ (anns.filter (fun x => x.colorName = e.1)).map (·.ann)))
        ++ (dedupFirstAux (acc.map Prod.fst) (anns.map (·.colorName))).map
          (fun c => (c, (anns.filter (fun x => x.colorName = c)).map (·.ann))) := by
  induction anns with
  | nil =>
    intro acc _
    simp [dedupFirstAux]
  | cons a rest ih =>
    intro acc hnd
    rw [List.foldl_cons]
    by_cases hc : a.colorName ∈ acc.map Prod.fst
    · rw [pushToGroup_mem _ _ acc hnd hc]
      rw [ih _ (by rw [map_fst_update]; exact hnd)]
      rw [map_fst_update]
      congr 1
      · rw [List.map_map]
        refine List.map_congr_left (fun e _ => ?_)
        by_cases he : e.1 = a.colorName
        · simp only [Function.comp_apply, if_pos he, List.filter_cons]
          rw [if_pos (by simp [he])]
          simp
        · simp only [Function.comp_apply, if_neg he, List.filter_cons]
          rw [if_neg (by simp; exact fun hh => he hh.symm)]
      · rw [List.map_cons, dedupFirstAux_cons, if_pos (by simpa using hc)]
        refine List.map_congr_left (fun c hcm => ?_)
        have hcne : ¬ (a.colorName = c) := by
          have := (dedupFirstAux_mem _ _ _).mp hcm
          exact fun hh => this.2 (hh ▸ hc)
        rw [List.filter_cons, if_neg (by simpa using hcne)]
    · rw [pushToGroup_not_mem a.colorName a.ann acc (fun e he hek =>
        hc (by rw [← hek]; exact List.mem_map_of_mem Prod.fst he))]
      have hnd2 : ((acc ++ [(a.colorName, [a.ann])]).map Prod.fst).Nodup := by
        rw [List.map_append]
        refine List.Nodup.append hnd (List.nodup_singleton _) ?_
        intro x hx hxc
        rw [List.map_singleton, List.mem_singleton] at hxc
        subst hxc
        exact hc hx
      rw [ih _ hnd2]
      simp only [List.map_append, List.map_cons, List.map_nil, List.map_singleton]
      rw [dedupFirstAux_cons, if_neg (by simpa using hc)]
      rw [List.append_assoc]
      congr 1
      · refine List.map_congr_left (fun e he => ?_)
        have hene : ¬ (a.colorName = e.1) := fun hh =>
          hc (by rw [hh]; exact List.mem_map_of_mem Prod.fst he)
        simp only [List.filter_cons]
        rw [if_neg (by simpa using hene)]
      · rw [List.singleton_append]
        congr 1
        · simp [List.filter_cons]
        · refine List.map_congr_left (fun c hcm => ?_)
          have hcne : ¬ (a.colorName = c) := by
            have := (dedupFirstAux_mem _ _ _).mp hcm
            intro hh
            exact this.2 (by rw [← hh]; simp)
          simp only [List.filter_cons]
          rw [if_neg (by simpa using hcne)]

theorem groupAnnotations_eq (anns : List RenderAnnotationWithColor) :
    groupAnnotations anns = (dedupFirst (anns.map (·.colorName))).map
      (fun c => ⟨c, (anns.filter (fun x => x.colorName = c)).map (·.ann)⟩) := by
  unfold groupAnnotations dedupFirst
  rw [foldl_pushToGroup anns [] (by simp)]
  simp [List.map_map]

theorem flatMap_congr_mem {α β : Type} (l : List α) (f g : α → List β)
    (h : ∀ x ∈ l, f x = g x) : l.flatMap f = l.flatMap g := by
  induction l with
  | nil => rfl
  | cons x xs ih =>
    rw [List.flatMap_cons, List.flatMap_cons, h x (List.mem_cons_self x xs),
      ih (fun y hy => h y (List.mem_cons_of_mem x hy))]

theorem flatten_filters_perm (cs : List String) : ∀ (anns : List RenderAnnotationWithColor),
    cs.Nodup → (∀ a ∈ anns, a.colorName ∈ cs) →
    (cs.flatMap (fun c => (anns.filter (fun x => x.colorName = c)).map (·.ann))).Perm
      (anns.map (·.ann)) := by
  induction cs with
  | nil =>
    intro anns _ hcov
    cases anns with
    | nil => simp
    | cons a rest => exact absurd (hcov a (List.mem_cons_self a rest)) (List.not_mem_nil _)
  | cons c cs ih =>
    intro anns hnd hcov
    rw [List.flatMap_cons]
    have hstep : ∀ c' ∈ cs,
        (anns.filter (fun x => x.colorName = c')).map (·.ann) =
          ((anns.filter (fun x => ¬ (x.colorName = c))).filter
            (fun x => x.colorName = c')).map (·.ann) := by
      intro c' hc'
      have hne : c' ≠ c := fun hh => (List.nodup_cons.mp hnd).1 (hh ▸ hc')
      congr 1
      rw [List.filter_filter]
      refine (List.filter_congr (fun a _ => ?_)).symm
      by_cases hac : a.colorName = c'
      · simp [hac, hne]
      · simp [hac]
    rw [flatMap_congr_mem cs _ _ hstep]
    have hcov2 : ∀ a ∈ anns.filter (fun x => ¬ (x.colorName = c)), a.colorName ∈ cs := by
      intro a ha
      rw [List.mem_filter] at ha
      rcases List.mem_cons.mp (hcov a ha.1) with h | h
      · exact absurd h (by simpa using ha.2)
      · exact h
    have IH := ih (anns.filter (fun x => ¬ (x.colorName = c))) (List.nodup_cons.mp hnd).2 hcov2
    refine ((List.Perm.append_left _ IH).trans ?_)
    rw [← List.map_append]
    refine List.Perm.map _ ?_
    have hmatch : anns.filter (fun x => ¬ (x.colorName = c)) =
        anns.filter (fun x => !(decide (x.colorName = c))) :=
      List.filter_congr (fun a _ => by simp)
    rw [hmatch]
    exact List.filter_append_perm _ anns

theorem buildRenderList_keys (citeDir markdownPath : String) :
    ∀ (l : List AnnotationModel) (n : Nat),
    ((buildRenderList citeDir markdownPath n l).1).map (fun r => r.ann.key) = l.map (·.key) := by
  intro l
  induction l with
  | nil => intro n; rfl
  | cons a rest ih =>
    intro n
    unfold buildRenderList
    by_cases h : a.isImageSelection <;> simp [h, ih]

theorem flatMap_groups_annotations (D : List String) (X : String → List RenderAnnotation) :
    ((D.map (fun c => (⟨c, X c⟩ : ColorGroup))).flatMap (·.annotations)) = D.flatMap X := by
  induction D with
  | nil => rfl
  | cons c cs ih => simp only [List.map_cons, List.flatMap_cons, ih]

theorem flatMap_map_out {α β γ : Type} (l : List α) (f : α → List β) (h : β → γ) :
    l.flatMap (fun x => (f x).map h) = (l.flatMap f).map h := by
  induction l with
  | nil => rfl
  | cons x xs ih => simp only [List.flatMap_cons, List.map_append, ih]

/-- C10: for every input, the color groups form an exact partition of the
annotations: group names are the distinct color names in first-occurrence
order (no duplicates), each group's annotation list is exactly the in-order
sublist of annotations bearing that color, and the concatenation of all groups
is a permutation of the input annotations (nothing dropped or duplicated,
including annotations whose text, comment, and page label are all empty);
through `prepareExport`, the multiset of annotation keys is preserved. -/
theorem groupAnnotations_partition :
    (∀ (anns : List RenderAnnotationWithColor),
      ((groupAnnotations anns).map (·.colorName) = dedupFirst (anns.map (·.colorName)) ∧
        ((groupAnnotations anns).map (·.colorName)).Nodup) ∧
      (∀ g ∈ groupAnnotations anns,
        g.annotations = (anns.filter (fun x => x.colorName = g.colorName)).map (·.ann)) ∧
      ((groupAnnotations anns).flatMap (·.annotations)).Perm (anns.map (·.ann))) ∧
    (∀ (input : ExportPreparationInput),
      (((prepareExport input).groupedAnnotations).flatMap
        (fun g => g.annotations.map (·.key))).Perm (input.annotations.map (·.key))) := by
  have hgroups : ∀ (anns : List RenderAnnotationWithColor),
      ((groupAnnotations anns).flatMap (·.annotations)).Perm (anns.map (·.ann)) := by
    intro anns
    rw [groupAnnotations_eq, flatMap_groups_annotations]
    refine flatten_filters_perm _ anns (dedupFirstAux_nodup _ _) ?_
    intro a ha
    rw [show dedupFirst (anns.map (·.colorName)) =
      dedupFirstAux [] (anns.map (·.colorName)) from rfl, dedupFirstAux_mem]
    exact ⟨List.mem_map_of_mem _ ha, by simp⟩
  refine ⟨fun anns => ⟨⟨?_, ?_⟩, ?_, hgroups anns⟩, ?_⟩
  · rw [groupAnnotations_eq, List.map_map,
      show ((fun x : ColorGroup => x.colorName) ∘ fun c =>
        (⟨c, (anns.filter (fun x => x.colorName = c)).map (·.ann)⟩ : ColorGroup)) = id from rfl,
      List.map_id]
  · rw [groupAnnotations_eq, List.map_map,
      show ((fun x : ColorGroup => x.colorName) ∘ fun c =>
        (⟨c, (anns.filter (fun x => x.colorName = c)).map (·.ann)⟩ : ColorGroup)) = id from rfl,
      List.map_id]
    exact dedupFirstAux_nodup _ _
  · intro g hg
    rw [groupAnnotations_eq, List.mem_map] at hg
    obtain ⟨c, -, rfl⟩ := hg
    rfl
  · intro input
    rw [show (prepareExport input).groupedAnnotations =
      groupAnnotations (buildRenderList
        (normalizePath (input.attachmentBaseDir ++ "/attachment/" ++ input.citeKey))
        (normalizePath (input.markdownDir ++ "/@" ++ input.citeKey ++ ".md")) 0
        (sortAnnotations input.annotations)).1 from rfl]
    rw [flatMap_map_out _ _ (fun a : RenderAnnotation => a.key)]
    refine ((hgroups _).map (fun a : RenderAnnotation => a.key)).trans ?_
    rw [List.map_map]
    rw [show ((fun a : RenderAnnotation => a.key) ∘ fun r : RenderAnnotationWithColor => r.ann) =
      (fun r : RenderAnnotationWithColor => r.ann.key) from rfl]
    rw [buildRenderList_keys]
    exact (List.perm_insertionSort annLe input.annotations).map (·.key)


set_option maxRecDepth 10000 in
/-- C10 witness: the per-group characterization applied to a concrete mixed
list, with the membership hypothesis discharged by evaluation. -/
theorem groupAnnotations_partition_witness :
    (⟨"Yellow", [⟨"K1", "first", "", "1", none, none⟩,
        ⟨"K3", "third", "", "3", none, none⟩]⟩ : ColorGroup).annotations =
      (c10Anns.filter (fun x => x.colorName = "Yellow")).map (·.ann) :=
  (groupAnnotations_partition.1 c10Anns).2.1
    ⟨"Yellow", [⟨"K1", "first", "", "1", none, none⟩, ⟨"K3", "third", "", "3", none, none⟩]⟩
    (by decide)

/-! ### Lemmas and theorems: relative-path computation -/

theorem data_append (a b : String) : (a ++ b).data = a.data ++ b.data := by
  cases a; cases b; rfl

theorem splitOnChar_ne_nil (sep : Char) (cs : List Char) : splitOnChar sep cs ≠ [] := by
  cases cs with
  | nil => simp [splitOnChar]
  | cons c rest =>
    unfold splitOnChar
    by_cases h : c = sep
    · simp [h]
    · rw [if_neg h]
      cases hrec : splitOnChar sep rest <;> simp

theorem splitOnChar_no_sep (sep : Char) : ∀ (cs : List Char),
    ∀ piece ∈ splitOnChar sep cs, sep ∉ piece := by
  intro cs
  induction cs with
  | nil =>
    intro piece hp
    rw [show splitOnChar sep [] = [[]] from rfl, List.mem_singleton] at hp
    subst hp
    simp
  | cons c rest ih =>
    intro piece hp
    unfold splitOnChar at hp
    by_cases h : c = sep
    · rw [if_pos h, List.mem_cons] at hp
      rcases hp with rfl | hp
      · simp
      · exact ih piece hp
    · rw [if_neg h] at hp
      cases hrec : splitOnChar sep rest with
      | nil => exact absurd hrec (splitOnChar_ne_nil sep rest)
      | cons hd tl =>
        rw [hrec, List.mem_cons] at hp
        rcases hp with rfl | hp
        · intro hmem
          rcases List.mem_cons.mp hmem with rfl | hmem2
          · exact h rfl
          · exact ih hd (hrec ▸ List.mem_cons_self hd tl) hmem2
        · exact ih piece (hrec ▸ List.mem_cons_of_mem hd hp)

theorem splitOnChar_cons_ne (sep c : Char) (rest : List Char) (hc : ¬ c = sep)
    (hd : List Char) (tl : List (List Char)) (hrest : splitOnChar sep rest = hd :: tl) :
    splitOnChar sep (c :: rest) = (c :: hd) :: tl := by
  unfold splitOnChar
  rw [if_neg hc, hrest]

theorem splitOnChar_of_no_sep (sep : Char) : ∀ (cs : List Char), sep ∉ cs →
    splitOnChar sep cs = [cs] := by
  intro cs
  induction cs with
  | nil => intro _; rfl
  | cons c rest ih =>
    intro h
    have hc : ¬ c = sep := fun hce => h (List.mem_cons.mpr (Or.inl hce.symm))
    rw [splitOnChar_cons_ne sep c rest hc rest []
      (ih (fun hm => h (List.mem_cons_of_mem c hm)))]

theorem splitOnChar_append (sep : Char) : ∀ (xs ys : List Char), sep ∉ xs →
    splitOnChar sep (xs ++ ys) = (splitOnChar sep ys).modifyHead (xs ++ ·) := by
  intro xs
  induction xs with
  | nil =>
    intro ys _
    cases h : splitOnChar sep ys with
    | nil => exact absurd h (splitOnChar_ne_nil sep ys)
    | cons hd tl => simp [h]
  | cons x xs ih =>
    intro ys h
    have hx : ¬ x = sep := fun hce => h (List.mem_cons.mpr (Or.inl hce.symm))
    rw [List.cons_append]
    cases hys : splitOnChar sep ys with
    | nil => exact absurd hys (splitOnChar_ne_nil sep ys)
    | cons hd tl =>
      have hxs := ih ys (fun hm => h (List.mem_cons_of_mem x hm))
      rw [hys] at hxs
      rw [splitOnChar_cons_ne sep x (xs ++ ys) hx (xs ++ hd) tl (hxs.trans rfl)]
      rfl

theorem relSplit_join : ∀ (parts : List String),
    (∀ p ∈ parts, p ≠ "" ∧ '/' ∉ p.data) →
    (((splitOnChar '/' (joinSep "/" parts).data).map (fun cs => (⟨cs⟩ : String))).filter
      (· ≠ "")) = parts
  | [] => by intro _; rfl
  | [p] => by
    intro h
    show (((splitOnChar '/' p.data).map (fun cs => (⟨cs⟩ : String))).filter (· ≠ "")) = [p]
    rw [splitOnChar_of_no_sep '/' p.data (h p (by simp)).2]
    rw [List.map_singleton]
    rw [List.filter_cons, if_pos (by simpa using (h p (by simp)).1)]
    rfl
  | p :: q :: rest => by
    intro h
    have hdata : (joinSep "/" (p :: q :: rest)).data =
        p.data ++ '/' :: (joinSep "/" (q :: rest)).data := by
      rw [show joinSep "/" (p :: q :: rest) = p ++ "/" ++ joinSep "/" (q :: rest) from rfl,
        data_append, data_append]
      simp
    rw [hdata, splitOnChar_append '/' p.data _ (h p (by simp)).2]
    rw [show splitOnChar '/' ('/' :: (joinSep "/" (q :: rest)).data) =
      [] :: splitOnChar '/' (joinSep "/" (q :: rest)).data from rfl]
    rw [List.modifyHead_cons, List.append_nil, List.map_cons]
    rw [List.filter_cons, if_pos (by simpa using (h p (by simp)).1)]
    rw [relSplit_join (q :: rest) (fun x hx => h x (List.mem_cons_of_mem p hx))]

theorem foldl_resolve_up : ∀ (k : Nat) (D : List String), k ≤ D.length →
    List.foldl resolveStep D (List.replicate k "..") = D.take (D.length - k) := by
  intro k
  induction k with
  | zero => intro D _; simp
  | succ k ih =>
    intro D hk
    rw [List.replicate_succ, List.foldl_cons]
    rw [show resolveStep D ".." = D.dropLast from by unfold resolveStep; rw [if_pos rfl]]
    rw [ih D.dropLast (by rw [List.length_dropLast]; omega)]
    rw [List.length_dropLast, List.dropLast_eq_take, List.take_take,
      min_eq_left (by omega : D.length - 1 - k ≤ D.length - 1)]
    congr 1
    omega

theorem foldl_resolve_down : ∀ (down : List String) (D : List String),
    (∀ s ∈ down, s ≠ ".." ∧ s ≠ ".") → List.foldl resolveStep D down = D ++ down := by
  intro down
  induction down with
  | nil => intro D _; simp
  | cons s rest ih =>
    intro D h
    rw [List.foldl_cons]
    rw [show resolveStep D s = D ++ [s] from by
      unfold resolveStep
      rw [if_neg (h s (by simp)).1, if_neg (h s (by simp)).2]]
    rw [ih (D ++ [s]) (fun x hx => h x (List.mem_cons_of_mem s hx))]
    simp

theorem commonPrefixLen_nil_left (T : List String) : commonPrefixLen [] T = 0 := by
  cases T <;> rfl

theorem commonPrefixLen_nil_right (D : List String) : commonPrefixLen D [] = 0 := by
  cases D <;> rfl

theorem commonPrefixLen_le_left : ∀ (D T : List String), commonPrefixLen D T ≤ D.length
  | [], T => by rw [commonPrefixLen_nil_left]; simp
  | _ :: _, [] => by rw [commonPrefixLen_nil_right]; simp
  | a :: as, b :: bs => by
    unfold commonPrefixLen
    by_cases h : a = b
    · rw [if_pos h]
      simpa using commonPrefixLen_le_left as bs
    · rw [if_neg h]
      simp

theorem commonPrefixLen_le_right : ∀ (D T : List String), commonPrefixLen D T ≤ T.length
  | [], T => by rw [commonPrefixLen_nil_left]; simp
  | _ :: _, [] => by rw [commonPrefixLen_nil_right]; simp
  | a :: as, b :: bs => by
    unfold commonPrefixLen
    by_cases h : a = b
    · rw [if_pos h]
      simpa using commonPrefixLen_le_right as bs
    · rw [if_neg h]
      simp

theorem commonPrefixLen_take : ∀ (D T : List String),
    D.take (commonPrefixLen D T) = T.take (commonPrefixLen D T)
  | [], T => by rw [commonPrefixLen_nil_left]; simp
  | _ :: _, [] => by rw [commonPrefixLen_nil_right]; simp
  | a :: as, b :: bs => by
    unfold commonPrefixLen
    by_cases h : a = b
    · rw [if_pos h]
      rw [List.take_succ_cons, List.take_succ_cons, h, commonPrefixLen_take as bs]
    · rw [if_neg h]
      simp

theorem commonPrefixLen_self : ∀ (D : List String), commonPrefixLen D D = D.length
  | [] => rfl
  | a :: as => by
    unfold commonPrefixLen
    rw [if_pos rfl, commonPrefixLen_self as]
    rfl

theorem splitPath_facts (p : String) : ∀ s ∈ splitPath p, s ≠ "" ∧ '/' ∉ s.data := by
  intro s hs
  unfold splitPath at hs
  rw [List.mem_filter] at hs
  obtain ⟨hmem, hne⟩ := hs
  rw [List.mem_map] at hmem
  obtain ⟨cs, hcs, rfl⟩ := hmem
  exact ⟨by simpa using hne, splitOnChar_no_sep '/' _ cs hcs⟩

theorem string_ne_empty_data (p : String) (h : p ≠ "") : p.data ≠ [] := by
  intro hd
  apply h
  cases p with
  | mk d => rw [show d = [] from hd]

theorem joinSep_pos : ∀ (parts : List String), parts ≠ [] → (∀ p ∈ parts, p ≠ "") →
    (joinSep "/" parts).length > 0
  | [], h, _ => absurd rfl h
  | [p], _, hne => by
    have hd := string_ne_empty_data p (hne p (by simp))
    show p.length > 0
    rw [show p.length = p.data.length from rfl]
    exact List.length_pos.mpr hd
  | p :: q :: rest, _, hne => by
    show (p ++ "/" ++ joinSep "/" (q :: rest)).length > 0
    rw [show (p ++ "/" ++ joinSep "/" (q :: rest)).length =
      (p ++ "/" ++ joinSep "/" (q :: rest)).data.length from rfl, data_append, data_append]
    simp

theorem resolve_round (D T : List String)
    (hT : ∀ s ∈ T, s ≠ "" ∧ '/' ∉ s.data) (hdots : ∀ s ∈ T, s ≠ "." ∧ s ≠ "..") :
    resolveRel D (if (joinSep "/" (List.replicate (D.length - commonPrefixLen D T) ".." ++
        T.drop (commonPrefixLen D T))).length > 0
      then joinSep "/" (List.replicate (D.length - commonPrefixLen D T) ".." ++
        T.drop (commonPrefixLen D T))
      else ".") = T := by
  have hle1 := commonPrefixLen_le_left D T
  have hle2 := commonPrefixLen_le_right D T
  by_cases hpe : List.replicate (D.length - commonPrefixLen D T) ".." ++
      T.drop (commonPrefixLen D T) = []
  · obtain ⟨hup, hdown⟩ := List.append_eq_nil.mp hpe
    have hi1 : commonPrefixLen D T = D.length := by
      have := (List.replicate_eq_nil_iff "..").mp hup
      omega
    have hi2 : commonPrefixLen D T = T.length := by
      have := List.drop_eq_nil_iff.mp hdown
      omega
    have hDT : D = T := by
      calc D = D.take (commonPrefixLen D T) := by rw [hi1, List.take_length]
        _ = T.take (commonPrefixLen D T) := commonPrefixLen_take D T
        _ = T := by rw [hi2, List.take_length]
    rw [hpe]
    rw [show joinSep "/" ([] : List String) = "" from rfl]
    rw [if_neg (by decide)]
    rw [show resolveRel D "." = D from rfl]
    exact hDT
  · have hfacts : ∀ p ∈ List.replicate (D.length - commonPrefixLen D T) ".." ++
        T.drop (commonPrefixLen D T), p ≠ "" ∧ '/' ∉ p.data := by
      intro p hp
      rcases List.mem_append.mp hp with hp | hp
      · rw [List.eq_of_mem_replicate hp]
        exact ⟨by decide, by decide⟩
      · exact hT p (List.mem_of_mem_drop hp)
    have hpos : (joinSep "/" (List.replicate (D.length - commonPrefixLen D T) ".." ++
        T.drop (commonPrefixLen D T))).length > 0 :=
      joinSep_pos _ hpe (fun p hp => (hfacts p hp).1)
    rw [if_pos hpos]
    rw [show resolveRel D (joinSep "/" (List.replicate (D.length - commonPrefixLen D T) ".." ++
        T.drop (commonPrefixLen D T))) =
      (((splitOnChar '/' (joinSep "/" (List.replicate (D.length - commonPrefixLen D T) ".." ++
        T.drop (commonPrefixLen D T))).data).map (fun cs => (⟨cs⟩ : String))).filter
          (· ≠ "")).foldl resolveStep D from rfl]
    rw [relSplit_join _ hfacts]
    rw [List.foldl_append]
    rw [foldl_resolve_up (D.length - commonPrefixLen D T) D (by omega)]
    rw [show D.length - (D.length - commonPrefixLen D T) = commonPrefixLen D T from by omega]
    rw [foldl_resolve_down (T.drop (commonPrefixLen D T)) (D.take (commonPrefixLen D T))
      (fun s hs => ⟨((hdots s (List.mem_of_mem_drop hs)).2),
        ((hdots s (List.mem_of_mem_drop hs)).1)⟩)]
    rw [commonPrefixLen_take D T]
    exact List.take_append_drop _ T

/-- C4, amended: for every markdown path and image path **whose components
contain no `.` or `..` segments**, resolving `toRelativePath(markdownPath,
imagePath)` against the markdown file's own directory yields back the image's
normalized absolute path (as its component list), at arbitrary common-prefix
depths including zero overlap and full containment; and when the target
coincides with the markdown file's directory the computed relative path is
`"."`. -/
theorem toRelativePath_roundtrip (f t : String) :
    ((∀ seg ∈ splitPath t, seg ≠ "." ∧ seg ≠ "..") →
      resolveRel ((splitPath f).dropLast) (toRelativePath f t) = splitPath t) ∧
    (splitPath t = (splitPath f).dropLast → toRelativePath f t = ".") := by
  have htrp : toRelativePath f t =
      (if (joinSep "/" (List.replicate ((splitPath f).dropLast.length -
          commonPrefixLen (splitPath f).dropLast (splitPath t)) ".." ++
          (splitPath t).drop (commonPrefixLen (splitPath f).dropLast (splitPath t)))).length > 0
       then joinSep "/" (List.replicate ((splitPath f).dropLast.length -
          commonPrefixLen (splitPath f).dropLast (splitPath t)) ".." ++
          (splitPath t).drop (commonPrefixLen (splitPath f).dropLast (splitPath t)))
       else ".") := rfl
  constructor
  · intro h
    rw [htrp]
    exact resolve_round _ _ (splitPath_facts t) h
  · intro hTD
    rw [htrp, hTD, commonPrefixLen_self, Nat.sub_self]
    rw [show List.replicate 0 ".." = ([] : List String) from rfl, List.nil_append,
      List.drop_length]
    rw [show joinSep "/" ([] : List String) = "" from rfl]
    rw [if_neg (by decide)]

/-- C4 witness: the roundtrip and the `"."` case at concrete paths, via
`toRelativePath_roundtrip`. -/
theorem toRelativePath_roundtrip_witness :
    resolveRel ((splitPath "/md/notes/@k.md").dropLast)
      (toRelativePath "/md/notes/@k.md" "/md/attachment/k/image_1.png") =
      splitPath "/md/attachment/k/image_1.png" ∧
    toRelativePath "/a/b/f.md" "/a/b" = "." := by
  constructor
  · exact (toRelativePath_roundtrip "/md/notes/@k.md" "/md/attachment/k/image_1.png").1 (by decide)
  · exact (toRelativePath_roundtrip "/a/b/f.md" "/a/b").2 (by decide)

/-- C4, counterexample: for the image path `"/a/../b"` (which contains a `..`
component), resolving the computed relative path `"../b"` against the markdown
file's directory yields `/b`, not the image's normalized absolute path
`a/../b`, so the claim fails for arbitrary paths. -/
theorem toRelativePath_roundtrip_counterexample :
    resolveRel ((splitPath "/a/f.md").dropLast) (toRelativePath "/a/f.md" "/a/../b") ≠
      splitPath "/a/../b" := by
  decide
